import Mathlib

/-!
Shallow embedding of `src/export_to_s3.py`, a script that reads MongoDB
collections into pandas DataFrames, sanitizes text, casts column types per a
static schema, serializes to newline-delimited JSON and uploads to S3.

Modelling conventions:
* A Python/pandas cell value is `Value`.  Python floats are modelled by their
  exact decimal value `dec m e` (meaning `m / 10^e`); no claim depends on IEEE
  rounding, and the numeric strings handled here all denote finite decimals.
* The distinct null-like scalars of the source stack are kept distinct because
  they behave differently under `astype(str)` and `json.dumps`:
  `pynone` (Python `None`), `nan` (float NaN, also pandas' backfill marker for
  keys missing from a record), `naT` (pandas NaT), `na` (pandas NA, the missing
  marker of the nullable `Int64` dtype).
* pandas dtype inference at `pd.DataFrame(data)` construction time is
  `inferDtype`; `clean_dataframe` selects columns of object/bool dtype exactly
  as `df.select_dtypes(include=["object", "bool"])` does.
* Fallible pandas operations (`astype("Int64")` on non-integral numerics,
  `json.dumps` on NA/Timestamp scalars) are embedded in `Except String`.
-/

namespace Ingesta

/-- Characters written via `Char.ofNat` to keep source text free of
delimiter literals. -/
def quoteChar : Char := Char.ofNat 34

def backslashChar : Char := Char.ofNat 92

def lbraceChar : Char := Char.ofNat 123

def rbraceChar : Char := Char.ofNat 125

/-- Decimal digit test on characters. -/
def isDigitCh (c : Char) : Bool := 48 ≤ c.toNat ∧ c.toNat ≤ 57

/-- Value of a decimal digit character. -/
def digVal (c : Char) : Nat := c.toNat - 48

/-- The digit character for `d < 10`. -/
def digitChar (d : Nat) : Char := Char.ofNat (48 + d)

/-- Value of a most-significant-first digit string, with accumulator. -/
def valOfDigits (ds : List Char) : Nat := ds.foldl (fun a c => a * 10 + digVal c) 0

/-- Decimal digits of `n`, most significant first (tail-recursive form). -/
def natDigitsAux (n : Nat) (acc : List Char) : List Char :=
  if h : n < 10 then digitChar n :: acc
  else natDigitsAux (n / 10) (digitChar (n % 10) :: acc)
  termination_by n
  decreasing_by exact Nat.div_lt_self (by omega) (by omega)

/-- Decimal digits of `n`, most significant first.  This is the standard
decimal representation, i.e. Python's `str` on a nonnegative int. -/
def natDigits (n : Nat) : List Char := natDigitsAux n []

/-- `natDigits` as a string. -/
def natRepr (n : Nat) : String := (natDigits n).asString

/-- Python's `str` on an int: optional minus sign and decimal digits. -/
def intDigits (n : Int) : List Char :=
  if n < 0 then '-' :: natDigits n.natAbs else natDigits n.natAbs

/-- Left-pad the decimal digits of `n` with zeros to width `w`
(strftime-style fixed-width field). -/
def padNat (w n : Nat) : List Char :=
  List.replicate (w - (natDigits n).length) '0' ++ natDigits n

theorem natDigitsAux_eq_append (n : Nat) (acc : List Char) :
    natDigitsAux n acc = natDigits n ++ acc := by
  induction n using Nat.strong_induction_on generalizing acc with
  | _ n ih =>
    rw [natDigits]
    unfold natDigitsAux
    by_cases h : n < 10
    · simp [h]
    · have hd : n / 10 < n := Nat.div_lt_self (by omega) (by omega)
      simp only [h, dite_false]
      rw [ih _ hd, ih _ hd]
      simp

theorem natDigits_cons (n : Nat) (h : ¬ n < 10) :
    natDigits n = natDigits (n / 10) ++ [digitChar (n % 10)] := by
  rw [natDigits, natDigitsAux]
  simp only [h, dite_false]
  rw [natDigitsAux_eq_append]

theorem natDigits_small (n : Nat) (h : n < 10) : natDigits n = [digitChar n] := by
  rw [natDigits, natDigitsAux]
  simp [h]

theorem digitChar_toNat (d : Nat) (h : d < 10) : (digitChar d).toNat = 48 + d := by
  interval_cases d <;> decide

theorem digVal_digitChar (d : Nat) (h : d < 10) : digVal (digitChar d) = d := by
  interval_cases d <;> decide

theorem isDigitCh_digitChar (d : Nat) (h : d < 10) : isDigitCh (digitChar d) = true := by
  interval_cases d <;> decide

theorem natDigits_ne_nil (n : Nat) : natDigits n ≠ [] := by
  by_cases h : n < 10
  · rw [natDigits_small n h]; simp
  · rw [natDigits_cons n h]; simp

theorem natDigits_all_digits (n : Nat) : ∀ c ∈ natDigits n, isDigitCh c = true := by
  induction n using Nat.strong_induction_on with
  | _ n ih =>
    by_cases h : n < 10
    · rw [natDigits_small n h]
      intro c hc
      simp at hc
      subst hc
      exact isDigitCh_digitChar n h
    · rw [natDigits_cons n h]
      intro c hc
      rcases List.mem_append.mp hc with h1 | h2
      · exact ih (n / 10) (Nat.div_lt_self (by omega) (by omega)) c h1
      · simp at h2
        subst h2
        exact isDigitCh_digitChar _ (Nat.mod_lt _ (by omega))

theorem valOfDigits_append_digit (ds : List Char) (c : Char) :
    valOfDigits (ds ++ [c]) = valOfDigits ds * 10 + digVal c := by
  simp [valOfDigits, List.foldl_append]

theorem valOfDigits_natDigits (n : Nat) : valOfDigits (natDigits n) = n := by
  induction n using Nat.strong_induction_on with
  | _ n ih =>
    by_cases h : n < 10
    · rw [natDigits_small n h]
      simp [valOfDigits, digVal_digitChar n h]
    · rw [natDigits_cons n h, valOfDigits_append_digit,
        ih (n / 10) (Nat.div_lt_self (by omega) (by omega)),
        digVal_digitChar _ (Nat.mod_lt _ (by omega))]
      omega

theorem natDigits_length_le (n k : Nat) (hk : 1 ≤ k) (h : n < 10 ^ k) :
    (natDigits n).length ≤ k := by
  induction k generalizing n with
  | zero => omega
  | succ k ihk =>
    by_cases hn : n < 10
    · rw [natDigits_small n hn]; simp
    · rw [natDigits_cons n hn]
      have hk1 : 1 ≤ k := by
        by_contra hk0
        have : k = 0 := by omega
        subst this
        simp at h
        omega
      have h10 : n / 10 < 10 ^ k := by
        rw [Nat.div_lt_iff_lt_mul (by omega : 0 < 10)]
        rw [pow_succ] at h
        exact h
      have := ihk (n / 10) hk1 h10
      simp [List.length_append]
      omega

theorem padNat_length (w n : Nat) (hw : 1 ≤ w) (h : n < 10 ^ w) :
    (padNat w n).length = w := by
  have := natDigits_length_le n w hw h
  simp [padNat, List.length_append, List.length_replicate]
  omega

theorem padNat_all_digits (w n : Nat) : ∀ c ∈ padNat w n, isDigitCh c = true := by
  intro c hc
  rcases List.mem_append.mp hc with h1 | h2
  · have := List.eq_of_mem_replicate h1
    subst this
    decide
  · exact natDigits_all_digits n c h2

/-!
## Cell values and pandas dtypes
-/

/-- A loosely-typed cell value, the scalars that flow through the pipeline
(spec section 3: string, number, boolean, date, or null).  `dec m e` is the
exact decimal `m / 10 ^ e`, modelling a Python float by its decimal value;
`dt` is a datetime scalar (time-of-day is carried only as presence in string
form, see `pyStr`).  The four null-like scalars of the source stack are kept
apart because `astype(str)` and `json.dumps` treat them differently. -/
inductive Value where
  | str (s : String)
  | int (n : Int)
  | dec (m : Int) (e : Nat)
  | bool (b : Bool)
  | dt (y mo d : Nat)
  | pynone
  | nan
  | naT
  | na
deriving DecidableEq, Repr

/-- pandas column dtypes relevant to this script. -/
inductive Dtype where
  | object
  | boolDt
  | int64
  | float64
  | datetime64
deriving DecidableEq, Repr

/-- Python's `str` of a `Timestamp` at midnight: `YYYY-MM-DD 00:00:00`.
The `strftime` date form used by the caster. -/
def dateRepr (y mo d : Nat) : String :=
  (padNat 4 y ++ '-' :: (padNat 2 mo ++ '-' :: padNat 2 d)).asString

/-- Python's `str` on a scalar, as applied element-wise by
`Series.astype(str)`: strings unchanged, ints in decimal, floats in decimal,
booleans as `True`/`False`, timestamps in ISO form with time, `None` as
`"None"`, float NaN as `"nan"`, pandas NaT as `"NaT"`, pandas NA as `"<NA>"`. -/
def pyStr : Value → String
  | .str s => s
  | .int n => (intDigits n).asString
  | .dec m e =>
      (if m < 0 then
        '-' :: (natDigits (m.natAbs / 10 ^ e) ++ '.' :: padNat e (m.natAbs % 10 ^ e))
      else
        natDigits (m.natAbs / 10 ^ e) ++ '.' :: padNat e (m.natAbs % 10 ^ e)).asString
  | .bool b => if b then "True" else "False"
  | .dt y mo d => dateRepr y mo d ++ " 00:00:00"
  | .pynone => "None"
  | .nan => "nan"
  | .naT => "NaT"
  | .na => "<NA>"

/-- Scalars whose presence makes a column numeric-like for dtype inference. -/
def isNumScalar : Value → Bool
  | .int _ => true
  | .dec _ _ => true
  | .nan => true
  | _ => false

/-- Scalars a numeric (float64) column may contain: numbers, NaN, and `None`
(which pandas converts to NaN when the rest of the column is numeric). -/
def isNumLike : Value → Bool
  | .int _ => true
  | .dec _ _ => true
  | .nan => true
  | .pynone => true
  | _ => false

/-- Scalars a datetime64 column may contain (`None`/NaN become NaT). -/
def isDtLike : Value → Bool
  | .dt _ _ _ => true
  | .pynone => true
  | .nan => true
  | .naT => true
  | _ => false

/-- Is this scalar a datetime? -/
def isDtScalar : Value → Bool
  | .dt _ _ _ => true
  | _ => false

/-- Is this scalar a Python bool? -/
def isBoolScalar : Value → Bool
  | .bool _ => true
  | _ => false

/-- Is this scalar a Python int? -/
def isIntScalar : Value → Bool
  | .int _ => true
  | _ => false

/-- pandas dtype inference for a column built by `pd.DataFrame(data)` from a
list of documents: all-bool gives `bool`; all-int gives `int64`; numbers mixed
with NaN/None give `float64`; datetimes (possibly with nulls) give
`datetime64[ns]`; everything else (strings, mixed, all-None, bools with
nulls) is `object`. -/
def inferDtype (vs : List Value) : Dtype :=
  if vs ≠ [] ∧ vs.all isBoolScalar then .boolDt
  else if vs ≠ [] ∧ vs.all isIntScalar then .int64
  else if vs.all isNumLike ∧ vs.any isNumScalar then .float64
  else if vs.all isDtLike ∧ vs.any isDtScalar then .datetime64
  else .object

/-!
## Sanitizer: `clean_dataframe`
-/

/-- One step of `.str.replace(r"[\r\n\t]", " ", regex=True)`: each occurrence
of CR, LF or TAB becomes a single space. -/
def ctrlToSpace (c : Char) : Char :=
  if c = '\r' ∨ c = '\n' ∨ c = '\t' then ' ' else c

/-- Printable-ASCII test, the class kept by
`.str.replace(r"[^\x20-\x7E]", "", regex=True)`. -/
def printable (c : Char) : Bool := 0x20 ≤ c.toNat ∧ c.toNat ≤ 0x7E

/-- The two chained regex replacements of `clean_dataframe` on one string:
CR/LF/TAB each become one space, then every character outside printable
ASCII is deleted. -/
def sanitize (s : String) : String :=
  ((s.data.map ctrlToSpace).filter printable).asString

/-- A DataFrame column: a name and its cell values. -/
structure Col where
  name : String
  values : List Value
deriving DecidableEq, Repr

/-- `clean_dataframe` on one column: columns selected by
`select_dtypes(include=["object", "bool"])` get `astype(str)` followed by the
two regex replacements; all other columns are untouched. -/
def cleanCol (c : Col) : Col :=
  if inferDtype c.values = .object ∨ inferDtype c.values = .boolDt then
    { c with values := c.values.map fun v => .str (sanitize (pyStr v)) }
  else c

/-- `clean_dataframe`, column list level. -/
def clean_dataframe (cols : List Col) : List Col := cols.map cleanCol

theorem sanitize_chars_printable (s : String) :
    ∀ c ∈ (sanitize s).data, printable c = true := by
  intro c hc
  simp only [sanitize, List.asString] at hc
  exact (List.mem_filter.mp hc).2

theorem printable_not_ctrl (c : Char) (h : printable c = true) :
    c ≠ '\r' ∧ c ≠ '\n' ∧ c ≠ '\t' := by
  simp only [printable, decide_eq_true_eq] at h
  refine ⟨?_, ?_, ?_⟩ <;> rintro rfl <;> simp at h

/-!
## Type caster: `cast_types`
-/

/-- Whitespace trim at character level (pandas' tolerance for surrounding
whitespace in numeric strings). -/
def trimChars (cs : List Char) : List Char :=
  ((cs.dropWhile Char.isWhitespace).reverse.dropWhile Char.isWhitespace).reverse

/-- Strict numeric parse of one string, the scalar kernel of
`pd.to_numeric`: optional surrounding whitespace, optional sign, then either
`digits`, `digits.digits?`, or `.digits`.  Anything else (including digit
grouping like `"1,234"`) fails.  A string with a decimal point denotes a
float and yields `dec` with at least one fractional digit (`"5."` is the
float `5.0`).  Not modelled: exponent notation and the `inf`/`nan` literals,
which no claim exercises. -/
def parseNumeric (s : String) : Option Value :=
  match trimChars s.data with
  | [] => .none
  | cs =>
    let signed := cs.head? = some '-'
    let body := if cs.head? = some '-' ∨ cs.head? = some '+' then cs.tail else cs
    let intPart := body.takeWhile isDigitCh
    let rest := body.dropWhile isDigitCh
    match rest with
    | [] =>
        if intPart = [] then .none
        else if signed then some (.int (-(valOfDigits intPart : Int)))
        else some (.int (valOfDigits intPart))
    | '.' :: frac =>
        if frac.all isDigitCh then
          if intPart = [] ∧ frac = [] then .none
          else
            let e := max frac.length 1
            let mag : Int := valOfDigits intPart * 10 ^ e + valOfDigits frac
            some (.dec (if signed then -mag else mag) e)
        else .none
    | _ => .none

/-- The scalar action of `pd.to_numeric(·, errors="coerce")`: numbers pass
through, booleans become 0/1, strings are strictly parsed with failures
coerced to NaN, null-like scalars coerce to NaN.  (The datetime-to-epoch
branch of `to_numeric` is not modelled; no schema casts a datetime column to
a number in any claim.) -/
def toNumeric : Value → Value
  | .str s => (parseNumeric s).getD .nan
  | .int n => .int n
  | .dec m e => .dec m e
  | .bool b => .int (if b then 1 else 0)
  | _ => .nan

/-- The nullable-integer cast `pd.to_numeric(·, errors="coerce").astype("Int64")`
per scalar.  NaN becomes the `Int64` missing marker `NA`; an in-range integer
value is kept; pandas' safe cast raises on a non-integral float value or on a
value outside the signed 64-bit range (`cannot safely cast non-equivalent
float64 to int64`). -/
def castIntValue (v : Value) : Except String Value :=
  match toNumeric v with
  | .int n =>
      if -(2 ^ 63) ≤ n ∧ n < 2 ^ 63 then .ok (.int n)
      else .error "cannot safely cast non-equivalent float64 to int64"
  | .dec m e =>
      if ((10 : Int) ^ e ∣ m) ∧ -(2 ^ 63) ≤ m / 10 ^ e ∧ m / 10 ^ e < 2 ^ 63 then
        .ok (.int (m / 10 ^ e))
      else .error "cannot safely cast non-equivalent float64 to int64"
  | _ => .ok .na

/-- Days in a month, Gregorian calendar. -/
def daysInMonth (y mo : Nat) : Nat :=
  if mo = 2 then
    if y % 4 = 0 ∧ (y % 100 ≠ 0 ∨ y % 400 = 0) then 29 else 28
  else if mo = 4 ∨ mo = 6 ∨ mo = 9 ∨ mo = 11 then 30
  else 31

/-- Validity of a time-of-day triple. -/
def validTime (hh mi ss : Nat) : Bool := hh < 24 ∧ mi < 60 ∧ ss < 60

/-- ISO date-string parse, the string kernel of
`pd.to_datetime(·, errors="coerce")`: `YYYY-MM-DD`, optionally followed by a
space or `T` and `HH:MM:SS` (the time-of-day is discarded).  Calendar-invalid
dates and dates outside pandas' `Timestamp` range coerce to NaT (the range
check is modelled as the fully-covered years 1678-2261).  pandas accepts
further input formats that are not modelled; every accepted form is
normalized to the same triple. -/
def parseDateString (s : String) : Option (Nat × Nat × Nat) :=
  match s.data with
  | [y1, y2, y3, y4, h1, m1, m2, h2, d1, d2] =>
      if [y1, y2, y3, y4, m1, m2, d1, d2].all isDigitCh ∧ h1 = '-' ∧ h2 = '-' then
        if 1678 ≤ valOfDigits [y1, y2, y3, y4] ∧ valOfDigits [y1, y2, y3, y4] ≤ 2261 ∧
            1 ≤ valOfDigits [m1, m2] ∧ valOfDigits [m1, m2] ≤ 12 ∧
            1 ≤ valOfDigits [d1, d2] ∧
            valOfDigits [d1, d2] ≤ daysInMonth (valOfDigits [y1, y2, y3, y4])
              (valOfDigits [m1, m2]) then
          some (valOfDigits [y1, y2, y3, y4], valOfDigits [m1, m2], valOfDigits [d1, d2])
        else .none
      else .none
  | [y1, y2, y3, y4, h1, m1, m2, h2, d1, d2, sep, t1, t2, c1, t3, t4, c2, t5, t6] =>
      if [y1, y2, y3, y4, m1, m2, d1, d2, t1, t2, t3, t4, t5, t6].all isDigitCh ∧
          h1 = '-' ∧ h2 = '-' ∧ (sep = ' ' ∨ sep = 'T') ∧ c1 = ':' ∧ c2 = ':' ∧
          validTime (valOfDigits [t1, t2]) (valOfDigits [t3, t4]) (valOfDigits [t5, t6]) then
        if 1678 ≤ valOfDigits [y1, y2, y3, y4] ∧ valOfDigits [y1, y2, y3, y4] ≤ 2261 ∧
            1 ≤ valOfDigits [m1, m2] ∧ valOfDigits [m1, m2] ≤ 12 ∧
            1 ≤ valOfDigits [d1, d2] ∧
            valOfDigits [d1, d2] ≤ daysInMonth (valOfDigits [y1, y2, y3, y4])
              (valOfDigits [m1, m2]) then
          some (valOfDigits [y1, y2, y3, y4], valOfDigits [m1, m2], valOfDigits [d1, d2])
        else .none
      else .none
  | _ => .none

/-- The scalar action of `pd.to_datetime(·, errors="coerce")`: a datetime
scalar passes through, a string is parsed, everything else coerces to NaT.
(The numeric nanoseconds-since-epoch branch is not modelled; no claim
exercises a numeric value in a date-typed field.) -/
def parseDT : Value → Option (Nat × Nat × Nat)
  | .dt y mo d => some (y, mo, d)
  | .str s => parseDateString s
  | .int _ => .none
  | .dec _ _ => .none
  | .bool _ => .none
  | .pynone => .none
  | .nan => .none
  | .naT => .none
  | .na => .none

/-- The date cast `pd.to_datetime(·, errors="coerce").dt.strftime("%Y-%m-%d")`
per scalar: a parseable value becomes its `YYYY-MM-DD` string, everything
else becomes NaN (`strftime` maps NaT to NaN). -/
def castDateValue (v : Value) : Value :=
  match parseDT v with
  | some (y, mo, d) => .str (dateRepr y mo d)
  | .none => .nan

/-- One schema entry applied to one column's values, following the
`if typ == ...` chain of `cast_types`. -/
def castCol (typ : String) (vs : List Value) : Except String (List Value) :=
  if typ = "int" then vs.mapM castIntValue
  else if typ = "float" then .ok (vs.map toNumeric)
  else if typ = "date" then .ok (vs.map castDateValue)
  else .ok (vs.map fun v => .str (pyStr v))

/-- One iteration of the schema loop of `cast_types`: a schema entry whose
name is not a column is skipped (`continue`); otherwise the named column's
values are re-cast in place, exceptions propagating. -/
def applySchemaEntry (cols : List Col) (name typ : String) : Except String (List Col) :=
  cols.mapM fun c =>
    if c.name = name then do
      let vs ← castCol typ c.values
      pure { c with values := vs }
    else pure c

/-- `cast_types`: fold the schema entries over the DataFrame.  The first
entry whose cast raises aborts the whole call, as the uncaught pandas
exception does. -/
def cast_types (cols : List Col) (schema : List (String × String)) :
    Except String (List Col) :=
  schema.foldlM (fun acc nt => applySchemaEntry acc nt.1 nt.2) cols

/-!
## DataFrame construction, `main` pipeline and orchestration
-/

/-- A fetched document: ordered field/value pairs (a Python dict). -/
abbrev Rec := List (String × Value)

/-- A DataFrame: named columns plus the row count (kept explicitly so that a
frame with zero columns still knows its number of rows, as pandas does). -/
structure Frame where
  cols : List Col
  nrows : Nat
deriving DecidableEq, Repr

/-- All columns hold one value per row. -/
def Rectangular (df : Frame) : Prop :=
  ∀ c ∈ df.cols, c.values.length = df.nrows

/-- First value bound to a key in a document. -/
def lookupKey (r : Rec) (k : String) : Option Value :=
  (r.find? fun kv => kv.1 = k).map fun kv => kv.2

/-- Column names of `pd.DataFrame(data)`: union of the documents' keys in
order of first appearance. -/
def colNames (rs : List Rec) : List String :=
  rs.foldl (fun acc r => acc ++ (r.map fun kv => kv.1).filter fun k => ¬ acc.contains k) []

/-- `pd.DataFrame(data)`: one column per key, and a key missing from a given
document is backfilled with NaN in that document's row. -/
def dataFrameOfRecords (rs : List Rec) : Frame :=
  { cols := (colNames rs).map fun k =>
      { name := k, values := rs.map fun r => (lookupKey r k).getD .nan },
    nrows := rs.length }

/-- `df.drop(columns=["_id"])` guarded by `if "_id" in df.columns`. -/
def dropId (df : Frame) : Frame :=
  { df with cols := df.cols.filter fun c => c.name ≠ "_id" }

/-- `clean_dataframe` at frame level. -/
def cleanFrame (df : Frame) : Frame :=
  { df with cols := clean_dataframe df.cols }

/-- `cast_types` at frame level. -/
def castFrame (df : Frame) (schema : List (String × String)) : Except String Frame :=
  (cast_types df.cols schema).map fun cols => { df with cols := cols }

/-- The row at index `i`, as `iterrows`/`row.to_dict()` yields it: the
columns' names paired with their `i`-th values, in column order. -/
def rowAt (df : Frame) (i : Nat) : Rec :=
  df.cols.map fun c => (c.name, c.values.getD i .nan)

/-- All rows of a frame, in order. -/
def rowsOf (df : Frame) : List Rec :=
  (List.range df.nrows).map (rowAt df)

/-- The per-collection frame pipeline of `main` between fetch and serialize:
build the DataFrame, drop `_id`, sanitize, cast. -/
def pipelineFrame (data : List Rec) (schema : List (String × String)) :
    Except String Frame :=
  castFrame (cleanFrame (dropId (dataFrameOfRecords data))) schema

/-- The static collection-to-folder table `COLLECTIONS`. -/
def COLLECTIONS : List (String × String) :=
  [("UserTiktokMetrics", "user_tiktok_metrics/"),
   ("AdminTiktokMetrics", "admin_tiktok_metrics/")]

/-- The 19 schema fields shared by both collections, in source order. -/
def commonSchemaFields : List (String × String) :=
  [("postId", "string"), ("datePosted", "date"), ("hourPosted", "string"),
   ("usernameTiktokAccount", "string"), ("postURL", "string"), ("views", "int"),
   ("likes", "int"), ("comments", "int"), ("saves", "int"), ("reposts", "int"),
   ("totalInteractions", "int"), ("engagement", "float"), ("numberHashtags", "int"),
   ("hashtags", "string"), ("soundId", "string"), ("soundURL", "string"),
   ("regionPost", "string"), ("dateTracking", "date"), ("timeTracking", "string")]

/-- The static schema table `SCHEMAS`. -/
def SCHEMAS (collection : String) : List (String × String) :=
  if collection = "UserTiktokMetrics" then commonSchemaFields ++ [("userId", "int")]
  else if collection = "AdminTiktokMetrics" then commonSchemaFields ++ [("adminId", "int")]
  else []

/-!
## Serializer: `export_to_ndjson`
-/

/-- Hex digit character (lowercase), as Python's `\uXXXX` escapes use. -/
def hexDigitChar (d : Nat) : Char :=
  if d < 10 then Char.ofNat (48 + d) else Char.ofNat (87 + d)

/-- `json.dumps` escaping of one character with `ensure_ascii=False`: quote
and backslash get a backslash escape, the control characters with short
escapes use them, remaining characters below 0x20 get `\u00XX`, and every
other character (ASCII or not) is emitted literally. -/
def jsonEscapeChar (c : Char) : List Char :=
  if c = quoteChar then [backslashChar, quoteChar]
  else if c = backslashChar then [backslashChar, backslashChar]
  else if c = '\n' then [backslashChar, 'n']
  else if c = '\t' then [backslashChar, 't']
  else if c = '\r' then [backslashChar, 'r']
  else if c = Char.ofNat 8 then [backslashChar, 'b']
  else if c = Char.ofNat 12 then [backslashChar, 'f']
  else if c.toNat < 0x20 then
    [backslashChar, 'u', '0', '0', hexDigitChar (c.toNat / 16), hexDigitChar (c.toNat % 16)]
  else [c]

/-- A JSON string literal: quote, escaped characters, quote. -/
def jsonStringChars (s : String) : List Char :=
  quoteChar :: (s.data.flatMap jsonEscapeChar) ++ [quoteChar]

/-- `json.dumps` on one scalar.  Strings, ints, floats, bools, `None` and
float NaN serialize (NaN as the non-standard literal `NaN` that `json.dumps`
emits by default); pandas scalars (`Timestamp`, NaT, NA) make `json.dumps`
raise `TypeError`. -/
def jsonValueChars : Value → Except String (List Char)
  | .str s => .ok (jsonStringChars s)
  | .int n => .ok (intDigits n)
  | .dec m e =>
      .ok (if m < 0 then
        '-' :: (natDigits (m.natAbs / 10 ^ e) ++ '.' :: padNat e (m.natAbs % 10 ^ e))
      else
        natDigits (m.natAbs / 10 ^ e) ++ '.' :: padNat e (m.natAbs % 10 ^ e))
  | .bool b => .ok (if b then ['t', 'r', 'u', 'e'] else ['f', 'a', 'l', 's', 'e'])
  | .pynone => .ok ['n', 'u', 'l', 'l']
  | .nan => .ok ['N', 'a', 'N']
  | .dt _ _ _ => .error "Object of type Timestamp is not JSON serializable"
  | .naT => .error "Object of type NaTType is not JSON serializable"
  | .na => .error "Object of type NAType is not JSON serializable"

/-- The key/value pairs inside a JSON object, with `json.dumps`' default
`", "` and `": "` separators. -/
def jsonFieldsChars : Rec → Except String (List Char)
  | [] => .ok []
  | [(k, v)] => do
      let vc ← jsonValueChars v
      .ok (jsonStringChars k ++ ':' :: ' ' :: vc)
  | (k, v) :: kv :: r => do
      let vc ← jsonValueChars v
      let rest ← jsonFieldsChars (kv :: r)
      .ok (jsonStringChars k ++ ':' :: ' ' :: vc ++ ',' :: ' ' :: rest)

/-- `json.dumps(row.to_dict(), ensure_ascii=False)`: one compact JSON
object. -/
def jsonRecordChars (r : Rec) : Except String (List Char) := do
  let fields ← jsonFieldsChars r
  .ok (lbraceChar :: fields ++ [rbraceChar])

/-- `export_to_ndjson`: each row as one JSON object followed by a newline. -/
def export_to_ndjson (df : Frame) : Except String String := do
  let lines ← (rowsOf df).mapM jsonRecordChars
  .ok (lines.foldr (fun l acc => l.asString ++ "\n" ++ acc) "")

/-- A full collection export: pipeline then serialize.  This is the part of
`main`'s loop body between a successful non-empty fetch and the S3 upload. -/
def processCollection (data : List Rec) (schema : List (String × String)) :
    Except String String := do
  let df ← pipelineFrame data schema
  export_to_ndjson df

/-!
## Orchestrator: `main`
-/

/-- What one iteration of `main`'s loop did for its collection. -/
inductive Outcome where
  | uploaded (key : String) (content : String)
  | skippedEmpty
  | failed (msg : String)
deriving DecidableEq, Repr

/-- One loop iteration of `main`, with the effectful boundaries (Mongo fetch,
S3 upload) passed in as functions: fetch everything, skip an empty
collection, run the pipeline, serialize, upload under `folder ++ name ++
".json"`.  The surrounding `try/except` turns any failure into a reported
`Outcome.failed` instead of a propagating exception. -/
def runCollection (fetch : String → Except String (List Rec))
    (upload : String → String → Except String Unit)
    (entry : String × String) : Outcome :=
  match fetch entry.1 with
  | .error e => .failed e
  | .ok [] => .skippedEmpty
  | .ok data =>
      match processCollection data (SCHEMAS entry.1) with
      | .error e => .failed e
      | .ok content =>
          match upload (entry.2 ++ entry.1 ++ ".json") content with
          | .error e => .failed e
          | .ok _ => .uploaded (entry.2 ++ entry.1 ++ ".json") content

/-- `main`: iterate the configured collections in order, producing one
outcome each.  The function is total: no failure escapes an iteration, so
the process always completes (exit status 0). -/
def main (fetch : String → Except String (List Rec))
    (upload : String → String → Except String Unit) : List Outcome :=
  COLLECTIONS.map (runCollection fetch upload)

/-!
## Reading NDJSON back: a line-by-line JSON parser

The round-trip claim compares `export_to_ndjson`'s output, parsed back one
line at a time, with the rows that were serialized.  The parser below reads
the serializer's grammar: JSON objects of scalar values with `", "`/`": "`
separators, one per newline-terminated line.
-/

/-- Hex digit value, both cases. -/
def hexVal? (c : Char) : Option Nat :=
  if 48 ≤ c.toNat ∧ c.toNat ≤ 57 then some (c.toNat - 48)
  else if 97 ≤ c.toNat ∧ c.toNat ≤ 102 then some (c.toNat - 87)
  else if 65 ≤ c.toNat ∧ c.toNat ≤ 70 then some (c.toNat - 55)
  else .none

/-- Single-character JSON escapes. -/
def unescapeChar (c : Char) : Option Char :=
  if c = quoteChar then some quoteChar
  else if c = backslashChar then some backslashChar
  else if c = '/' then some '/'
  else if c = 'n' then some '\n'
  else if c = 't' then some '\t'
  else if c = 'r' then some '\r'
  else if c = 'b' then some (Char.ofNat 8)
  else if c = 'f' then some (Char.ofNat 12)
  else .none

/-- Parse the body of a JSON string literal (after the opening quote), up to
and including the closing quote; returns the decoded characters and the
remaining input. -/
def parseStringBody : List Char → Option (List Char × List Char)
  | [] => .none
  | c :: rest =>
    if c = quoteChar then some ([], rest)
    else if c = backslashChar then
      match rest with
      | [] => .none
      | e :: rest2 =>
        if e = 'u' then
          match rest2 with
          | a :: b :: c2 :: d :: rest3 =>
            match hexVal? a, hexVal? b, hexVal? c2, hexVal? d with
            | some ha, some hb, some hc, some hd =>
              match parseStringBody rest3 with
              | some (tl, r) =>
                  some (Char.ofNat (((ha * 16 + hb) * 16 + hc) * 16 + hd) :: tl, r)
              | .none => .none
            | _, _, _, _ => .none
          | _ => .none
        else
          match unescapeChar e with
          | some u =>
            match parseStringBody rest2 with
            | some (tl, r) => some (u :: tl, r)
            | .none => .none
          | .none => .none
    else
      match parseStringBody rest with
      | some (tl, r) => some (c :: tl, r)
      | .none => .none
  termination_by cs => cs.length
  decreasing_by all_goals (simp [List.length_cons]; try omega)

/-- Parse a JSON number after an optional leading minus sign: digits,
optionally a point and at least one fractional digit. -/
def parseNumBody (neg : Bool) (cs : List Char) : Option (Value × List Char) :=
  let d1 := cs.takeWhile isDigitCh
  let r1 := cs.dropWhile isDigitCh
  if d1 = [] then .none
  else if r1.head? = some '.' then
    let d2 := r1.tail.takeWhile isDigitCh
    let r3 := r1.tail.dropWhile isDigitCh
    if d2 = [] then .none
    else
      let m : Int := valOfDigits d1 * 10 ^ d2.length + valOfDigits d2
      some (.dec (if neg then -m else m) d2.length, r3)
  else
    some (.int (if neg then -(valOfDigits d1 : Int) else (valOfDigits d1 : Int)), r1)

/-- Consume an expected literal character sequence. -/
def expectChars : List Char → List Char → Option (List Char)
  | [], cs => some cs
  | p :: ps, c :: cs => if c = p then expectChars ps cs else .none
  | _ :: _, [] => .none

/-- Parse one JSON scalar: a string, `true`, `false`, `null`, the `NaN`
literal that `json.dumps` emits, or a number. -/
def parseValue (cs : List Char) : Option (Value × List Char) :=
  match cs with
  | [] => .none
  | c :: rest =>
    if c = quoteChar then
      match parseStringBody rest with
      | some (body, r) => some (.str body.asString, r)
      | .none => .none
    else if c = 't' then (expectChars ['r', 'u', 'e'] rest).map fun r => (.bool true, r)
    else if c = 'f' then (expectChars ['a', 'l', 's', 'e'] rest).map fun r => (.bool false, r)
    else if c = 'n' then (expectChars ['u', 'l', 'l'] rest).map fun r => (.pynone, r)
    else if c = 'N' then (expectChars ['a', 'N'] rest).map fun r => (.nan, r)
    else if c = '-' then parseNumBody true rest
    else parseNumBody false cs

/-- Parse the fields of a nonempty JSON object (after the opening brace), up
to and including the closing brace, expecting the serializer's `", "` and
`": "` separators.  `fuel` bounds the number of fields; any fuel at least
the input length suffices. -/
def parseFieldsAux : Nat → List Char → Option (Rec × List Char)
  | 0, _ => .none
  | fuel + 1, cs =>
    match cs with
    | c :: rest =>
      if c = quoteChar then
        match parseStringBody rest with
        | some (kcs, r1) =>
          match r1 with
          | ':' :: ' ' :: r2 =>
            match parseValue r2 with
            | some (v, r3) =>
              match r3 with
              | r3c :: r4 =>
                if r3c = ',' then
                  match r4 with
                  | ' ' :: r5 =>
                    match parseFieldsAux fuel r5 with
                    | some (fs, r6) => some ((kcs.asString, v) :: fs, r6)
                    | .none => .none
                  | _ => .none
                else if r3c = rbraceChar then some ([(kcs.asString, v)], r4)
                else .none
              | [] => .none
            | .none => .none
          | _ => .none
        | .none => .none
      else .none
    | [] => .none

/-- Parse one JSON object. -/
def parseRecordChars (cs : List Char) : Option (Rec × List Char) :=
  match cs with
  | c :: rest =>
    if c = lbraceChar then
      match rest with
      | c2 :: rest2 =>
          if c2 = rbraceChar then some ([], rest2) else parseFieldsAux cs.length rest
      | [] => .none
    else .none
  | [] => .none

/-- Parse a whole NDJSON stream: records separated by newlines, reading one
record per line.  `fuel` bounds the number of lines; any fuel at least the
input length suffices. -/
def parseNDJSONAux : Nat → List Char → Option (List Rec)
  | _, [] => some []
  | 0, _ :: _ => .none
  | fuel + 1, c :: cs =>
    match parseRecordChars (c :: cs) with
    | some (r, '\n' :: rest) => (parseNDJSONAux fuel rest).map fun rs => r :: rs
    | _ => .none

/-- Parse an NDJSON byte stream back into its records, line by line. -/
def parseNDJSON (s : String) : Option (List Rec) := parseNDJSONAux s.data.length s.data

/-- The scalars `json.dumps` can serialize (and, for floats, those whose
serialized form the decimal grammar reads back verbatim: at least one
fractional digit, which every float produced by the strict numeric parse
has). -/
def SerializableV : Value → Bool
  | .str _ => true
  | .int _ => true
  | .dec _ e => 1 ≤ e
  | .bool _ => true
  | .pynone => true
  | .nan => true
  | _ => false

/-!
## Round-trip lemmas
-/

theorem asString_data (s : String) : s.data.asString = s := rfl

theorem hexVal_hexDigitChar (d : Nat) (h : d < 16) : hexVal? (hexDigitChar d) = some d := by
  interval_cases d <;> decide

theorem parseStringBody_quote (rest : List Char) :
    parseStringBody (quoteChar :: rest) = some ([], rest) := by
  rw [parseStringBody.eq_def]
  simp

theorem parseStringBody_escaped (e u : Char) (hu : unescapeChar e = some u)
    (he : e ≠ 'u') (rest : List Char) :
    parseStringBody (backslashChar :: e :: rest) =
      match parseStringBody rest with
      | some (tl, r) => some (u :: tl, r)
      | .none => .none := by
  rw [parseStringBody.eq_def]
  simp [show ¬ backslashChar = quoteChar by decide, he, hu]

theorem parseStringBody_unicode (a b c2 d : Char) (ha hb hc hd : Nat)
    (hva : hexVal? a = some ha) (hvb : hexVal? b = some hb)
    (hvc : hexVal? c2 = some hc) (hvd : hexVal? d = some hd) (rest : List Char) :
    parseStringBody (backslashChar :: 'u' :: a :: b :: c2 :: d :: rest) =
      match parseStringBody rest with
      | some (tl, r) => some (Char.ofNat (((ha * 16 + hb) * 16 + hc) * 16 + hd) :: tl, r)
      | .none => .none := by
  rw [parseStringBody.eq_def]
  simp [show ¬ backslashChar = quoteChar by decide, hva, hvb, hvc, hvd]

theorem parseStringBody_lit (c : Char) (h1 : c ≠ quoteChar) (h2 : c ≠ backslashChar)
    (rest : List Char) :
    parseStringBody (c :: rest) =
      match parseStringBody rest with
      | some (tl, r) => some (c :: tl, r)
      | .none => .none := by
  rw [parseStringBody.eq_def]
  simp [h1, h2]

theorem parseStringBody_escape (cs rest : List Char) :
    parseStringBody (cs.flatMap jsonEscapeChar ++ quoteChar :: rest) = some (cs, rest) := by
  induction cs with
  | nil => simpa using parseStringBody_quote rest
  | cons c tl ih =>
    rw [List.flatMap_cons, List.append_assoc]
    by_cases h1 : c = quoteChar
    · subst h1
      rw [show jsonEscapeChar quoteChar = [backslashChar, quoteChar] from by decide]
      rw [List.cons_append, List.cons_append, List.nil_append,
        parseStringBody_escaped quoteChar quoteChar (by decide) (by decide), ih]
    · by_cases h2 : c = backslashChar
      · subst h2
        rw [show jsonEscapeChar backslashChar = [backslashChar, backslashChar] from by decide]
        rw [List.cons_append, List.cons_append, List.nil_append,
          parseStringBody_escaped backslashChar backslashChar (by decide) (by decide), ih]
      · by_cases h3 : c = '\n'
        · subst h3
          rw [show jsonEscapeChar '\n' = [backslashChar, 'n'] from by decide]
          rw [List.cons_append, List.cons_append, List.nil_append,
            parseStringBody_escaped 'n' '\n' (by decide) (by decide), ih]
        · by_cases h4 : c = '\t'
          · subst h4
            rw [show jsonEscapeChar '\t' = [backslashChar, 't'] from by decide]
            rw [List.cons_append, List.cons_append, List.nil_append,
              parseStringBody_escaped 't' '\t' (by decide) (by decide), ih]
          · by_cases h5 : c = '\r'
            · subst h5
              rw [show jsonEscapeChar '\r' = [backslashChar, 'r'] from by decide]
              rw [List.cons_append, List.cons_append, List.nil_append,
                parseStringBody_escaped 'r' '\r' (by decide) (by decide), ih]
            · by_cases h6 : c = Char.ofNat 8
              · subst h6
                rw [show jsonEscapeChar (Char.ofNat 8) = [backslashChar, 'b'] from by decide]
                rw [List.cons_append, List.cons_append, List.nil_append,
                  parseStringBody_escaped 'b' (Char.ofNat 8) (by decide) (by decide), ih]
              · by_cases h7 : c = Char.ofNat 12
                · subst h7
                  rw [show jsonEscapeChar (Char.ofNat 12) = [backslashChar, 'f'] from by decide]
                  rw [List.cons_append, List.cons_append, List.nil_append,
                    parseStringBody_escaped 'f' (Char.ofNat 12) (by decide) (by decide), ih]
                · by_cases h8 : c.toNat < 0x20
                  · have hesc : jsonEscapeChar c =
                        [backslashChar, 'u', '0', '0', hexDigitChar (c.toNat / 16),
                          hexDigitChar (c.toNat % 16)] := by
                      simp [jsonEscapeChar, h1, h2, h3, h4, h5, h6, h7, h8]
                    rw [hesc]
                    rw [List.cons_append, List.cons_append, List.cons_append,
                      List.cons_append, List.cons_append, List.cons_append, List.nil_append,
                      parseStringBody_unicode '0' '0' _ _ 0 0 (c.toNat / 16) (c.toNat % 16)
                        (by decide) (by decide)
                        (hexVal_hexDigitChar _ (by omega)) (hexVal_hexDigitChar _ (by omega)),
                      ih]
                    have hchar : ((0 * 16 + 0) * 16 + c.toNat / 16) * 16 + c.toNat % 16 =
                        c.toNat := by omega
                    rw [hchar, Char.ofNat_toNat]
                  · have hesc : jsonEscapeChar c = [c] := by
                      simp [jsonEscapeChar, h1, h2, h3, h4, h5, h6, h7, h8]
                    rw [hesc]
                    rw [List.cons_append, List.nil_append,
                      parseStringBody_lit c h1 h2, ih]

theorem takeWhile_digits_append (ds rest : List Char)
    (hds : ∀ c ∈ ds, isDigitCh c = true)
    (hrest : ∀ c, rest.head? = some c → isDigitCh c = false) :
    (ds ++ rest).takeWhile isDigitCh = ds ∧ (ds ++ rest).dropWhile isDigitCh = rest := by
  induction ds with
  | nil =>
    simp only [List.nil_append]
    cases rest with
    | nil => simp
    | cons r rt =>
      have := hrest r rfl
      simp [List.takeWhile_cons, List.dropWhile_cons, this]
  | cons d dt ih =>
    have hd := hds d (by simp)
    have hih := ih fun c hc => hds c (by simp [hc])
    simp [List.takeWhile_cons, List.dropWhile_cons, hd, hih.1, hih.2]

theorem foldl_digits_replicate_zero (k a : Nat) :
    List.foldl (fun a c => a * 10 + digVal c) a (List.replicate k '0') = a * 10 ^ k := by
  induction k generalizing a with
  | zero => simp
  | succ k ih =>
    rw [List.replicate_succ, List.foldl_cons, ih]
    have h0 : digVal '0' = 0 := by decide
    rw [h0]
    ring

theorem valOfDigits_padNat (w n : Nat) : valOfDigits (padNat w n) = n := by
  rw [padNat, valOfDigits, List.foldl_append, foldl_digits_replicate_zero]
  simpa [valOfDigits] using valOfDigits_natDigits n

theorem head_ne_dot_of_not_digit_dot (rest : List Char)
    (hrest : ∀ c, rest.head? = some c → isDigitCh c = false ∧ c ≠ '.') :
    ¬ rest.head? = some '.' := by
  intro h
  exact (hrest '.' h).2 rfl

theorem parseNumBody_nat (neg : Bool) (n : Nat) (rest : List Char)
    (hrest : ∀ c, rest.head? = some c → isDigitCh c = false ∧ c ≠ '.') :
    parseNumBody neg (natDigits n ++ rest) =
      some (.int (if neg then -(n : Int) else (n : Int)), rest) := by
  obtain ⟨htake, hdrop⟩ := takeWhile_digits_append (natDigits n) rest
    (natDigits_all_digits n) fun c hc => (hrest c hc).1
  rw [parseNumBody]
  simp only [htake, hdrop, natDigits_ne_nil n, ite_false,
    head_ne_dot_of_not_digit_dot rest hrest, valOfDigits_natDigits]

theorem parseNumBody_dec (neg : Bool) (q r e : Nat) (he : 1 ≤ e) (hr : r < 10 ^ e)
    (rest : List Char)
    (hrest : ∀ c, rest.head? = some c → isDigitCh c = false) :
    parseNumBody neg (natDigits q ++ '.' :: (padNat e r ++ rest)) =
      some (.dec (if neg then -(q * 10 ^ e + r : Int) else (q * 10 ^ e + r : Int)) e, rest) := by
  have hdot : isDigitCh '.' = false := by decide
  obtain ⟨htake1, hdrop1⟩ := takeWhile_digits_append (natDigits q)
    ('.' :: (padNat e r ++ rest)) (natDigits_all_digits q) (by intro c hc; simp at hc; subst hc; decide)
  obtain ⟨htake2, hdrop2⟩ := takeWhile_digits_append (padNat e r) rest
    (padNat_all_digits e r) hrest
  have hlen : (padNat e r).length = e := padNat_length e r he hr
  have hne : padNat e r ≠ [] := by
    intro h0
    rw [h0] at hlen
    simp at hlen
    omega
  rw [parseNumBody]
  simp only [htake1, hdrop1, natDigits_ne_nil q, ite_false, List.head?_cons,
    Option.some.injEq, ite_true, List.tail_cons, htake2, hdrop2, hne,
    valOfDigits_natDigits, valOfDigits_padNat, hlen]

theorem ne_char_of_digit (c : Char) (h : isDigitCh c = true) :
    c ≠ quoteChar ∧ c ≠ 't' ∧ c ≠ 'f' ∧ c ≠ 'n' ∧ c ≠ 'N' ∧ c ≠ '-' := by
  refine ⟨?_, ?_, ?_, ?_, ?_, ?_⟩ <;> rintro rfl <;> revert h <;> decide

theorem natDigits_head_cons (a : Nat) : ∃ d ds, natDigits a = d :: ds := by
  cases h : natDigits a with
  | nil => exact absurd h (natDigits_ne_nil _)
  | cons d ds => exact ⟨d, ds, rfl⟩

theorem parseValue_roundtrip (v : Value) (hv : SerializableV v = true) (vc : List Char)
    (hok : jsonValueChars v = .ok vc) (rest : List Char)
    (hrest : ∀ c, rest.head? = some c → isDigitCh c = false ∧ c ≠ '.') :
    parseValue (vc ++ rest) = some (v, rest) := by
  cases v with
  | str s =>
    simp only [jsonValueChars, Except.ok.injEq] at hok
    subst hok
    simp only [jsonStringChars, List.cons_append, List.append_assoc, List.singleton_append]
    simp [parseValue, parseStringBody_escape, asString_data]
  | int n =>
    simp only [jsonValueChars, Except.ok.injEq] at hok
    subst hok
    rw [intDigits]
    by_cases hn : n < 0
    · rw [if_pos hn, List.cons_append, parseValue]
      simp only [show ('-' : Char) ≠ quoteChar from by decide,
        show ('-' : Char) ≠ 't' from by decide, show ('-' : Char) ≠ 'f' from by decide,
        show ('-' : Char) ≠ 'n' from by decide, show ('-' : Char) ≠ 'N' from by decide,
        ite_false, if_pos rfl]
      rw [parseNumBody_nat true n.natAbs rest hrest]
      have habs : ((n.natAbs : Nat) : Int) = -n := Int.ofNat_natAbs_of_nonpos (by omega)
      simp [habs]
    · obtain ⟨d, ds, hds⟩ := natDigits_head_cons n.natAbs
      have hd : isDigitCh d = true := natDigits_all_digits _ d (by rw [hds]; simp)
      have hne := ne_char_of_digit d hd
      rw [if_neg hn, hds, List.cons_append, parseValue]
      simp only [hne.1, hne.2.1, hne.2.2.1, hne.2.2.2.1, hne.2.2.2.2.1, hne.2.2.2.2.2,
        ite_false]
      rw [← List.cons_append, ← hds, parseNumBody_nat false n.natAbs rest hrest]
      have habs : ((n.natAbs : Nat) : Int) = n := Int.natAbs_of_nonneg (by omega)
      simp [habs]
  | dec m e =>
    have he : 1 ≤ e := by simpa [SerializableV] using hv
    have hr : m.natAbs % 10 ^ e < 10 ^ e := Nat.mod_lt _ (by positivity)
    have hqr : m.natAbs / 10 ^ e * 10 ^ e + m.natAbs % 10 ^ e = m.natAbs := by
      rw [Nat.mul_comm]
      exact Nat.div_add_mod _ _
    have hqrz : ((m.natAbs / 10 ^ e : Nat) : Int) * (10 : Int) ^ e +
        ((m.natAbs % 10 ^ e : Nat) : Int) = (m.natAbs : Int) := by
      exact_mod_cast hqr
    simp only [jsonValueChars, Except.ok.injEq] at hok
    subst hok
    by_cases hm : m < 0
    · rw [if_pos hm, List.cons_append, parseValue]
      simp only [show ('-' : Char) ≠ quoteChar from by decide,
        show ('-' : Char) ≠ 't' from by decide, show ('-' : Char) ≠ 'f' from by decide,
        show ('-' : Char) ≠ 'n' from by decide, show ('-' : Char) ≠ 'N' from by decide,
        ite_false, if_pos rfl]
      rw [List.append_assoc, List.cons_append]
      rw [parseNumBody_dec true _ _ e he hr rest fun c hc => (hrest c hc).1]
      have habs : ((m.natAbs : Nat) : Int) = -m := Int.ofNat_natAbs_of_nonpos (by omega)
      simp [hqrz, habs]
      linarith [Int.ediv_add_emod (-m) ((10 : Int) ^ e)]
    · obtain ⟨d, ds, hds⟩ := natDigits_head_cons (m.natAbs / 10 ^ e)
      have hd : isDigitCh d = true := natDigits_all_digits _ d (by rw [hds]; simp)
      have hne := ne_char_of_digit d hd
      rw [if_neg hm, List.append_assoc, List.cons_append, hds, List.cons_append, parseValue]
      simp only [hne.1, hne.2.1, hne.2.2.1, hne.2.2.2.1, hne.2.2.2.2.1, hne.2.2.2.2.2,
        ite_false]
      rw [← List.cons_append, ← hds,
        parseNumBody_dec false _ _ e he hr rest fun c hc => (hrest c hc).1]
      have habs : ((m.natAbs : Nat) : Int) = m := Int.natAbs_of_nonneg (by omega)
      simp [hqrz, habs]
      linarith [Int.ediv_add_emod m ((10 : Int) ^ e)]
  | bool b =>
    cases b <;> simp only [jsonValueChars, Bool.false_eq_true, ite_true, ite_false,
      Except.ok.injEq] at hok <;> subst hok
    · rw [List.cons_append, parseValue]
      simp [expectChars, show ('f' : Char) ≠ quoteChar from by decide,
        show ('f' : Char) ≠ 't' from by decide]
    · rw [List.cons_append, parseValue]
      simp [expectChars, show ('t' : Char) ≠ quoteChar from by decide]
  | pynone =>
    simp only [jsonValueChars, Except.ok.injEq] at hok
    subst hok
    rw [List.cons_append, parseValue]
    simp [expectChars, show ('n' : Char) ≠ quoteChar from by decide,
      show ('n' : Char) ≠ 't' from by decide, show ('n' : Char) ≠ 'f' from by decide]
  | nan =>
    simp only [jsonValueChars, Except.ok.injEq] at hok
    subst hok
    rw [List.cons_append, parseValue]
    simp [expectChars, show ('N' : Char) ≠ quoteChar from by decide,
      show ('N' : Char) ≠ 't' from by decide, show ('N' : Char) ≠ 'f' from by decide,
      show ('N' : Char) ≠ 'n' from by decide]
  | dt y mo d => simp [jsonValueChars] at hok
  | naT => simp [jsonValueChars] at hok
  | na => simp [jsonValueChars] at hok

theorem rbrace_head_safe :
    ∀ c, (rbraceChar :: (r : List Char)).head? = some c → isDigitCh c = false ∧ c ≠ '.' := by
  intro c hc
  simp at hc
  subst hc
  decide

theorem comma_head_safe :
    ∀ c, (',' :: (r : List Char)).head? = some c → isDigitCh c = false ∧ c ≠ '.' := by
  intro c hc
  simp at hc
  subst hc
  decide

theorem parseFieldsAux_roundtrip (fs : Rec) (out : List Char)
    (hok : jsonFieldsChars fs = .ok out)
    (hser : ∀ kv ∈ fs, SerializableV kv.2 = true)
    (hne : fs ≠ []) :
    ∀ F, fs.length ≤ F → ∀ rest,
      parseFieldsAux F (out ++ rbraceChar :: rest) = some (fs, rest) := by
  induction fs generalizing out with
  | nil => exact absurd rfl hne
  | cons kv tl ih =>
    obtain ⟨k, v⟩ := kv
    intro F hF rest
    cases F with
    | zero =>
      rw [List.length_cons] at hF
      omega
    | succ F =>
      have hsv : SerializableV v = true := hser (k, v) (by simp)
      cases tl with
      | nil =>
        simp only [jsonFieldsChars] at hok
        cases hvc : jsonValueChars v with
        | error e => rw [hvc] at hok; simp [Bind.bind, Except.bind] at hok
        | ok vc =>
          rw [hvc] at hok
          simp only [Bind.bind, Except.bind, Except.ok.injEq] at hok
          subst hok
          have hpv := parseValue_roundtrip v hsv vc hvc (rbraceChar :: rest)
            (by intro c hc; simp at hc; subst hc; decide)
          rw [jsonStringChars]
          simp only [List.cons_append, List.append_assoc, List.singleton_append,
            List.nil_append]
          rw [parseFieldsAux]
          simp [parseStringBody_escape, hpv, asString_data,
            show ¬ (rbraceChar = ',') from by decide]
      | cons kv2 tl2 =>
        simp only [jsonFieldsChars] at hok
        cases hvc : jsonValueChars v with
        | error e => rw [hvc] at hok; simp [Bind.bind, Except.bind] at hok
        | ok vc =>
          rw [hvc] at hok
          cases hrest' : jsonFieldsChars (kv2 :: tl2) with
          | error e => rw [hrest'] at hok; simp [Bind.bind, Except.bind] at hok
          | ok out2 =>
            rw [hrest'] at hok
            simp only [Bind.bind, Except.bind, Except.ok.injEq] at hok
            subst hok
            have hpv := parseValue_roundtrip v hsv vc hvc
              (',' :: ' ' :: (out2 ++ rbraceChar :: rest))
              (by intro c hc; simp at hc; subst hc; decide)
            have hih := ih out2 hrest'
              (fun kv hkv => hser kv (by simp [hkv])) (by simp) F (by simpa using hF)
              rest
            rw [jsonStringChars]
            simp only [List.cons_append, List.append_assoc, List.singleton_append,
              List.nil_append]
            rw [parseFieldsAux]
            simp [parseStringBody_escape, hpv, asString_data, hih]

theorem jsonFieldsChars_length (fs : Rec) (out : List Char)
    (hok : jsonFieldsChars fs = .ok out) : fs.length ≤ out.length := by
  induction fs generalizing out with
  | nil =>
    simp only [jsonFieldsChars, Except.ok.injEq] at hok
    subst hok
    simp
  | cons kv tl ih =>
    obtain ⟨k, v⟩ := kv
    cases tl with
    | nil =>
      simp only [jsonFieldsChars] at hok
      cases hvc : jsonValueChars v with
      | error e => rw [hvc] at hok; simp [Bind.bind, Except.bind] at hok
      | ok vc =>
        rw [hvc] at hok
        simp only [Bind.bind, Except.bind, Except.ok.injEq] at hok
        subst hok
        simp [jsonStringChars]
    | cons kv2 tl2 =>
      simp only [jsonFieldsChars] at hok
      cases hvc : jsonValueChars v with
      | error e => rw [hvc] at hok; simp [Bind.bind, Except.bind] at hok
      | ok vc =>
        rw [hvc] at hok
        cases hrest' : jsonFieldsChars (kv2 :: tl2) with
        | error e => rw [hrest'] at hok; simp [Bind.bind, Except.bind] at hok
        | ok out2 =>
          rw [hrest'] at hok
          simp only [Bind.bind, Except.bind, Except.ok.injEq] at hok
          subst hok
          have := ih out2 hrest'
          simp only [List.length_cons, List.length_append, jsonStringChars] at this ⊢
          omega

theorem jsonFieldsChars_head (k : String) (v : Value) (tl : Rec) (out : List Char)
    (hok : jsonFieldsChars ((k, v) :: tl) = .ok out) :
    ∃ out', out = quoteChar :: out' := by
  cases tl with
  | nil =>
    simp only [jsonFieldsChars] at hok
    cases hvc : jsonValueChars v with
    | error e => rw [hvc] at hok; simp [Bind.bind, Except.bind] at hok
    | ok vc =>
      rw [hvc] at hok
      simp only [Bind.bind, Except.bind, Except.ok.injEq] at hok
      subst hok
      refine ⟨(k.data.flatMap jsonEscapeChar ++ [quoteChar]) ++ ':' :: ' ' :: vc, ?_⟩
      simp [jsonStringChars]
  | cons kv2 tl2 =>
    simp only [jsonFieldsChars] at hok
    cases hvc : jsonValueChars v with
    | error e => rw [hvc] at hok; simp [Bind.bind, Except.bind] at hok
    | ok vc =>
      rw [hvc] at hok
      cases hrest' : jsonFieldsChars (kv2 :: tl2) with
      | error e => rw [hrest'] at hok; simp [Bind.bind, Except.bind] at hok
      | ok out2 =>
        rw [hrest'] at hok
        simp only [Bind.bind, Except.bind, Except.ok.injEq] at hok
        subst hok
        refine ⟨(k.data.flatMap jsonEscapeChar ++ [quoteChar]) ++
          ':' :: ' ' :: vc ++ ',' :: ' ' :: out2, ?_⟩
        simp [jsonStringChars]

theorem parseRecordChars_roundtrip (r : Rec) (out : List Char)
    (hok : jsonRecordChars r = .ok out)
    (hser : ∀ kv ∈ r, SerializableV kv.2 = true) (rest : List Char) :
    parseRecordChars (out ++ rest) = some (r, rest) := by
  simp only [jsonRecordChars] at hok
  cases hfs : jsonFieldsChars r with
  | error e => rw [hfs] at hok; simp [Bind.bind, Except.bind] at hok
  | ok fields =>
    rw [hfs] at hok
    simp only [Bind.bind, Except.bind, Except.ok.injEq] at hok
    subst hok
    cases r with
    | nil =>
      simp only [jsonFieldsChars, Except.ok.injEq] at hfs
      subst hfs
      simp [parseRecordChars, show ¬ lbraceChar = rbraceChar from by decide]
    | cons kv tl =>
      have hfl := jsonFieldsChars_length _ _ hfs
      obtain ⟨out', hout'⟩ := jsonFieldsChars_head kv.1 kv.2 tl fields hfs
      subst hout'
      simp only [List.cons_append, List.append_assoc, List.singleton_append,
        List.nil_append]
      rw [parseRecordChars]
      simp only [if_pos rfl, show ¬ quoteChar = rbraceChar from by decide, ite_false]
      have hfuel := parseFieldsAux_roundtrip (kv :: tl) (quoteChar :: out') hfs hser
        (by simp)
        (lbraceChar :: quoteChar :: (out' ++ rbraceChar :: rest)).length
        (by simp only [List.length_cons, List.length_append] at hfl ⊢; omega) rest
      simpa using hfuel

theorem jsonValueChars_isOk (v : Value) (hv : SerializableV v = true) :
    ∃ out, jsonValueChars v = .ok out := by
  cases v <;> first
    | exact ⟨_, rfl⟩
    | simp [SerializableV] at hv

theorem jsonFieldsChars_isOk (fs : Rec) (hser : ∀ kv ∈ fs, SerializableV kv.2 = true) :
    ∃ out, jsonFieldsChars fs = .ok out := by
  induction fs with
  | nil => exact ⟨[], rfl⟩
  | cons kv tl ih =>
    obtain ⟨k, v⟩ := kv
    obtain ⟨vc, hvc⟩ := jsonValueChars_isOk v (hser (k, v) (by simp))
    cases tl with
    | nil =>
      refine ⟨jsonStringChars k ++ ':' :: ' ' :: vc, ?_⟩
      simp [jsonFieldsChars, hvc, Bind.bind, Except.bind]
    | cons kv2 tl2 =>
      obtain ⟨out2, hout2⟩ := ih fun kv hkv => hser kv (by simp [hkv])
      refine ⟨jsonStringChars k ++ ':' :: ' ' :: (vc ++ ',' :: ' ' :: out2), ?_⟩
      simp [jsonFieldsChars, hvc, hout2, Bind.bind, Except.bind]

theorem jsonRecordChars_isOk (r : Rec) (hser : ∀ kv ∈ r, SerializableV kv.2 = true) :
    ∃ out, jsonRecordChars r = .ok out := by
  obtain ⟨fields, hf⟩ := jsonFieldsChars_isOk r hser
  refine ⟨lbraceChar :: fields ++ [rbraceChar], ?_⟩
  simp [jsonRecordChars, hf, Bind.bind, Except.bind]

theorem jsonRecordChars_head (r : Rec) (out : List Char)
    (hok : jsonRecordChars r = .ok out) : ∃ out', out = lbraceChar :: out' := by
  simp only [jsonRecordChars] at hok
  cases hfs : jsonFieldsChars r with
  | error e => rw [hfs] at hok; simp [Bind.bind, Except.bind] at hok
  | ok fields =>
    rw [hfs] at hok
    simp only [Bind.bind, Except.bind, Except.ok.injEq] at hok
    exact ⟨_, hok.symm⟩

theorem mapM_jsonRecordChars_isOk (rows : List Rec)
    (hser : ∀ r ∈ rows, ∀ kv ∈ r, SerializableV kv.2 = true) :
    ∃ lines, rows.mapM jsonRecordChars = .ok lines := by
  induction rows with
  | nil => exact ⟨[], rfl⟩
  | cons r rt ih =>
    obtain ⟨l, hl⟩ := jsonRecordChars_isOk r (hser r (by simp))
    obtain ⟨lt, hlt⟩ := ih fun r2 h2 => hser r2 (by simp [h2])
    refine ⟨l :: lt, ?_⟩
    rw [List.mapM_cons, hl, hlt]
    rfl

theorem mapM_jsonRecordChars_cons (r : Rec) (rt : List Rec) (lines : List (List Char))
    (h : (r :: rt).mapM jsonRecordChars = .ok lines) :
    ∃ l lt, jsonRecordChars r = .ok l ∧ rt.mapM jsonRecordChars = .ok lt ∧
      lines = l :: lt := by
  rw [List.mapM_cons] at h
  cases hl : jsonRecordChars r with
  | error e => rw [hl] at h; simp [Bind.bind, Except.bind] at h
  | ok l =>
    rw [hl] at h
    cases hlt : rt.mapM jsonRecordChars with
    | error e => rw [hlt] at h; simp [Bind.bind, Except.bind] at h
    | ok lt =>
      rw [hlt] at h
      simp only [Bind.bind, Except.bind, pure, Except.pure, Except.ok.injEq] at h
      exact ⟨l, lt, rfl, rfl, h.symm⟩

theorem mapM_jsonRecordChars_length (rows : List Rec) (lines : List (List Char))
    (h : rows.mapM jsonRecordChars = .ok lines) : rows.length = lines.length := by
  induction rows generalizing lines with
  | nil =>
    simp only [List.mapM_nil, pure, Except.pure, Except.ok.injEq] at h
    subst h
    rfl
  | cons r rt ih =>
    obtain ⟨l, lt, _, hlt, rfl⟩ := mapM_jsonRecordChars_cons r rt lines h
    simp [ih lt hlt]

theorem parseNDJSONAux_roundtrip (rows : List Rec) (lines : List (List Char))
    (hok : rows.mapM jsonRecordChars = .ok lines)
    (hser : ∀ r ∈ rows, ∀ kv ∈ r, SerializableV kv.2 = true) :
    ∀ F, rows.length ≤ F →
      parseNDJSONAux F (lines.foldr (fun l acc => l ++ '\n' :: acc) []) = some rows := by
  induction rows generalizing lines with
  | nil =>
    simp only [List.mapM_nil, pure, Except.pure, Except.ok.injEq] at hok
    subst hok
    intro F hF
    cases F with
    | zero => rfl
    | succ F => rfl
  | cons r rt ih =>
    obtain ⟨l, lt, hl, hlt, rfl⟩ := mapM_jsonRecordChars_cons r rt lines hok
    intro F hF
    cases F with
    | zero =>
      rw [List.length_cons] at hF
      omega
    | succ F =>
      obtain ⟨l', hl'⟩ := jsonRecordChars_head r l hl
      have hrec := parseRecordChars_roundtrip r l hl (hser r (by simp))
        ('\n' :: lt.foldr (fun a b => a ++ '\n' :: b) [])
      rw [hl'] at hrec ⊢
      rw [List.cons_append] at hrec
      simp only [List.foldr_cons, List.cons_append]
      rw [parseNDJSONAux, hrec]
      have hihgoal := ih lt hlt (fun r2 h2 => hser r2 (by simp [h2])) F
        (by rw [List.length_cons] at hF; omega)
      simp [hihgoal]

theorem foldr_newline_length (lines : List (List Char)) :
    lines.length ≤ (lines.foldr (fun l acc => l ++ '\n' :: acc) []).length := by
  induction lines with
  | nil => simp
  | cons l ls ih =>
    simp only [List.foldr_cons, List.length_cons, List.length_append]
    omega

theorem foldr_asString (lines : List (List Char)) :
    lines.foldr (fun l acc => l.asString ++ "\n" ++ acc) "" =
      (lines.foldr (fun l acc => l ++ '\n' :: acc) []).asString := by
  induction lines with
  | nil => rfl
  | cons l ls ih =>
    rw [List.foldr_cons, List.foldr_cons, ih]
    have happ : ∀ (x y : List Char), x.asString ++ y.asString = (x ++ y).asString := by
      intro x y
      rfl
    rw [show ("\n" : String) = ['\n'].asString from rfl, happ, happ]
    simp

theorem export_to_ndjson_roundtrip (df : Frame)
    (hser : ∀ r ∈ rowsOf df, ∀ kv ∈ r, SerializableV kv.2 = true) :
    ∃ out, export_to_ndjson df = .ok out ∧ parseNDJSON out = some (rowsOf df) := by
  obtain ⟨lines, hlines⟩ := mapM_jsonRecordChars_isOk (rowsOf df) hser
  refine ⟨(lines.foldr (fun l acc => l ++ '\n' :: acc) []).asString, ?_, ?_⟩
  · rw [export_to_ndjson, hlines]
    simp only [Bind.bind, Except.bind]
    rw [foldr_asString]
  · rw [parseNDJSON]
    have hdata : ((lines.foldr (fun l acc => l ++ '\n' :: acc) []).asString).data =
        lines.foldr (fun l acc => l ++ '\n' :: acc) [] := rfl
    rw [hdata]
    apply parseNDJSONAux_roundtrip (rowsOf df) lines hlines hser
    rw [mapM_jsonRecordChars_length (rowsOf df) lines hlines]
    exact foldr_newline_length lines

/-!
## Lemmas about the type caster
-/

theorem mapM_except_forall2 {α β : Type} (f : α → Except String β) :
    ∀ (xs : List α) (ys : List β), xs.mapM f = .ok ys →
      List.Forall₂ (fun x y => f x = .ok y) xs ys := by
  intro xs
  induction xs with
  | nil =>
    intro ys h
    simp only [List.mapM_nil, pure, Except.pure, Except.ok.injEq] at h
    subst h
    constructor
  | cons x xt ih =>
    intro ys h
    rw [List.mapM_cons] at h
    cases hx : f x with
    | error e => rw [hx] at h; simp [Bind.bind, Except.bind] at h
    | ok y =>
      rw [hx] at h
      cases hxt : xt.mapM f with
      | error e => rw [hxt] at h; simp [Bind.bind, Except.bind] at h
      | ok yt =>
        rw [hxt] at h
        simp only [Bind.bind, Except.bind, pure, Except.pure, Except.ok.injEq] at h
        subst h
        exact List.Forall₂.cons hx (ih yt hxt)

theorem mapM_except_ok_of_forall {α β : Type} (f : α → Except String β) (xs : List α)
    (h : ∀ x ∈ xs, ∃ y, f x = .ok y) : ∃ ys, xs.mapM f = .ok ys := by
  induction xs with
  | nil => exact ⟨[], rfl⟩
  | cons x xt ih =>
    obtain ⟨y, hy⟩ := h x (by simp)
    obtain ⟨yt, hyt⟩ := ih fun x2 h2 => h x2 (by simp [h2])
    refine ⟨y :: yt, ?_⟩
    rw [List.mapM_cons, hy, hyt]
    rfl

theorem Forall2_compose {α β γ : Type} (r : α → β → Prop) (s : β → γ → Prop)
    {xs : List α} {ys : List β} {zs : List γ}
    (h1 : List.Forall₂ r xs ys) (h2 : List.Forall₂ s ys zs) :
    List.Forall₂ (fun x z => ∃ y, r x y ∧ s y z) xs zs := by
  induction h1 generalizing zs with
  | nil =>
    cases h2
    constructor
  | cons hr hrest ih =>
    cases h2 with
    | cons hs hsrest => exact List.Forall₂.cons ⟨_, hr, hs⟩ (ih hsrest)

theorem Forall2_refl_of {α : Type} (r : α → α → Prop) (xs : List α)
    (h : ∀ x ∈ xs, r x x) : List.Forall₂ r xs xs := by
  induction xs with
  | nil => constructor
  | cons x xt ih => exact List.Forall₂.cons (h x (by simp)) (ih fun y hy => h y (by simp [hy]))

theorem applySchemaEntry_rel (cols cols' : List Col) (name typ : String)
    (h : applySchemaEntry cols name typ = .ok cols') :
    List.Forall₂ (fun c c' => c'.name = c.name ∧ (c.name ≠ name → c' = c) ∧
      (c.name = name → castCol typ c.values = .ok c'.values)) cols cols' := by
  have h2 := mapM_except_forall2 _ cols cols' h
  refine h2.imp ?_
  intro c c' hf
  by_cases hn : c.name = name
  · rw [if_pos hn] at hf
    cases hcc : castCol typ c.values with
    | error e => rw [hcc] at hf; simp [Bind.bind, Except.bind] at hf
    | ok vs =>
      rw [hcc] at hf
      simp only [Bind.bind, Except.bind, pure, Except.pure, Except.ok.injEq] at hf
      subst hf
      exact ⟨rfl, fun hc => absurd hn hc, fun _ => by simp [hcc]⟩
  · rw [if_neg hn] at hf
    simp only [pure, Except.pure, Except.ok.injEq] at hf
    subst hf
    exact ⟨rfl, fun _ => rfl, fun hc => absurd hc hn⟩

theorem cast_types_forall2 (schema : List (String × String)) :
    ∀ (cols cols' : List Col), cast_types cols schema = .ok cols' →
      List.Forall₂ (fun c c' => c'.name = c.name ∧
        (c.name ∉ schema.map Prod.fst → c' = c)) cols cols' := by
  induction schema with
  | nil =>
    intro cols cols' h
    simp only [cast_types, List.foldlM_nil, pure, Except.pure, Except.ok.injEq] at h
    subst h
    exact Forall2_refl_of _ _ fun c _ => ⟨rfl, fun _ => rfl⟩
  | cons e rest ih =>
    intro cols cols' h
    rw [cast_types, List.foldlM_cons] at h
    cases hacc : applySchemaEntry cols e.1 e.2 with
    | error er => rw [hacc] at h; simp [Bind.bind, Except.bind] at h
    | ok acc =>
      rw [hacc] at h
      simp only [Bind.bind, Except.bind] at h
      have h1 := applySchemaEntry_rel cols acc e.1 e.2 hacc
      have h2 := ih acc cols' h
      refine (Forall2_compose _ _ h1 h2).imp ?_
      rintro c c' ⟨c2, ⟨hn2, hne2, _⟩, hn3, hne3⟩
      refine ⟨by rw [hn3, hn2], fun hnot => ?_⟩
      simp only [List.map_cons, List.mem_cons] at hnot
      push_neg at hnot
      rw [hne3 (by rw [hn2]; exact hnot.2), hne2 (by simpa using hnot.1)]

theorem cast_types_field (schema : List (String × String)) (name typ : String) :
    ∀ (cols cols' : List Col), (name, typ) ∈ schema →
      (schema.map Prod.fst).Nodup →
      cast_types cols schema = .ok cols' →
      List.Forall₂ (fun c c' => c'.name = c.name ∧
        (c.name = name → castCol typ c.values = .ok c'.values)) cols cols' := by
  induction schema with
  | nil =>
    intro cols cols' hmem _ _
    simp at hmem
  | cons e rest ih =>
    intro cols cols' hmem hnd h
    rw [cast_types, List.foldlM_cons] at h
    cases hacc : applySchemaEntry cols e.1 e.2 with
    | error er => rw [hacc] at h; simp [Bind.bind, Except.bind] at h
    | ok acc =>
      rw [hacc] at h
      simp only [Bind.bind, Except.bind] at h
      have h1 := applySchemaEntry_rel cols acc e.1 e.2 hacc
      simp only [List.map_cons, List.nodup_cons] at hnd
      rcases List.mem_cons.mp hmem with heq | hrest
      · subst heq
        have h2 := cast_types_forall2 rest acc cols' h
        refine (Forall2_compose _ _ h1 h2).imp ?_
        rintro c c' ⟨c2, ⟨hn2, _, hcast2⟩, hn3, hne3⟩
        refine ⟨by rw [hn3, hn2], fun hc => ?_⟩
        have hc2 : c' = c2 := by
          apply hne3
          rw [hn2, hc]
          exact hnd.1
        rw [hc2]
        exact hcast2 hc
      · have hkey : e.1 ≠ name := by
          intro hk
          apply hnd.1
          rw [hk]
          exact List.mem_map_of_mem Prod.fst hrest
        have h2 := ih acc cols' hrest hnd.2 h
        refine (Forall2_compose _ _ h1 h2).imp ?_
        rintro c c' ⟨c2, ⟨hn2, hne2, _⟩, hn3, hcast3⟩
        refine ⟨by rw [hn3, hn2], fun hc => ?_⟩
        have hcc2 : c2 = c := hne2 (by rw [hc]; exact fun hk => hkey hk.symm)
        rw [← hcc2]
        exact hcast3 (by rw [hcc2, hc])

theorem castIntValue_shape (v v' : Value) (h : castIntValue v = .ok v') :
    (∃ n : Int, v' = .int n ∧ -(2 ^ 63) ≤ n ∧ n < 2 ^ 63) ∨ v' = .na := by
  unfold castIntValue at h
  split at h
  · split_ifs at h with hb
    simp only [Except.ok.injEq] at h
    exact Or.inl ⟨_, h.symm, hb.1, hb.2⟩
  · split_ifs at h with hb
    simp only [Except.ok.injEq] at h
    exact Or.inl ⟨_, h.symm, hb.2.1, hb.2.2⟩
  · simp only [Except.ok.injEq] at h
    exact Or.inr h.symm

theorem Forall2_mem_right {α β : Type} {r : α → β → Prop} {xs : List α} {ys : List β}
    (h : List.Forall₂ r xs ys) : ∀ y ∈ ys, ∃ x ∈ xs, r x y := by
  induction h with
  | nil => simp
  | cons hr hrest ih =>
    intro y hy
    rcases List.mem_cons.mp hy with rfl | hy2
    · exact ⟨_, by simp, hr⟩
    · obtain ⟨x, hx, hrx⟩ := ih y hy2
      exact ⟨x, by simp [hx], hrx⟩

theorem castCol_int_shape (vs vs' : List Value) (h : castCol "int" vs = .ok vs') :
    ∀ v' ∈ vs', (∃ n : Int, v' = .int n ∧ -(2 ^ 63) ≤ n ∧ n < 2 ^ 63) ∨ v' = .na := by
  rw [castCol, if_pos rfl] at h
  intro v' hv'
  obtain ⟨v, _, hvv⟩ := Forall2_mem_right (mapM_except_forall2 castIntValue vs vs' h) v' hv'
  exact castIntValue_shape v v' hvv

theorem castCol_date_eq (vs : List Value) : castCol "date" vs = .ok (vs.map castDateValue) := by
  rw [castCol]
  simp

theorem castCol_float_eq (vs : List Value) : castCol "float" vs = .ok (vs.map toNumeric) := by
  rw [castCol]
  simp

theorem castCol_other_eq (vs : List Value) (typ : String) (h1 : typ ≠ "int")
    (h2 : typ ≠ "float") (h3 : typ ≠ "date") :
    castCol typ vs = .ok (vs.map fun v => .str (pyStr v)) := by
  rw [castCol, if_neg h1, if_neg h2, if_neg h3]

theorem castCol_isOk (typ : String) (vs : List Value)
    (hint : typ = "int" → ∀ v ∈ vs, ∃ v', castIntValue v = .ok v') :
    ∃ vs', castCol typ vs = .ok vs' := by
  by_cases h1 : typ = "int"
  · subst h1
    rw [castCol, if_pos rfl]
    exact mapM_except_ok_of_forall _ _ (hint rfl)
  · by_cases h2 : typ = "float"
    · subst h2
      exact ⟨_, castCol_float_eq vs⟩
    · by_cases h3 : typ = "date"
      · subst h3
        exact ⟨_, castCol_date_eq vs⟩
      · exact ⟨_, castCol_other_eq vs typ h1 h2 h3⟩

theorem applySchemaEntry_isOk (cols : List Col) (name typ : String)
    (hint : typ = "int" → ∀ c ∈ cols, c.name = name →
      ∀ v ∈ c.values, ∃ v', castIntValue v = .ok v') :
    ∃ cols', applySchemaEntry cols name typ = .ok cols' := by
  apply mapM_except_ok_of_forall
  intro c hc
  by_cases hn : c.name = name
  · obtain ⟨vs', hvs'⟩ := castCol_isOk typ c.values fun ht v hv => hint ht c hc hn v hv
    refine ⟨{ c with values := vs' }, ?_⟩
    rw [if_pos hn, hvs']
    rfl
  · exact ⟨c, by rw [if_neg hn]; rfl⟩

theorem cast_types_isOk (schema : List (String × String)) :
    ∀ cols : List Col, (schema.map Prod.fst).Nodup →
      (∀ name, (name, "int") ∈ schema → ∀ c ∈ cols, c.name = name →
        ∀ v ∈ c.values, ∃ v', castIntValue v = .ok v') →
      ∃ cols', cast_types cols schema = .ok cols' := by
  induction schema with
  | nil => exact fun cols _ _ => ⟨cols, rfl⟩
  | cons e rest ih =>
    intro cols hnd hint
    simp only [List.map_cons, List.nodup_cons] at hnd
    obtain ⟨acc, hacc⟩ := applySchemaEntry_isOk cols e.1 e.2 fun ht c hc hn v hv =>
      hint e.1 (by rw [← ht]; simp) c hc hn v hv
    have h1 := applySchemaEntry_rel cols acc e.1 e.2 hacc
    have hresthyp : ∀ name, (name, "int") ∈ rest → ∀ c2 ∈ acc, c2.name = name →
        ∀ v ∈ c2.values, ∃ v', castIntValue v = .ok v' := by
      intro name hname c2 hc2 hn2 v hv
      have hkey : e.1 ≠ name := by
        intro hk
        apply hnd.1
        rw [hk]
        exact List.mem_map_of_mem Prod.fst hname
      obtain ⟨c, hcmem, hcn, hcne, _⟩ := Forall2_mem_right h1 c2 hc2
      have hcc : c2 = c := hcne (by rw [← hcn, hn2]; exact fun hk => hkey hk.symm)
      subst hcc
      exact hint name (by simp [hname]) c2 hcmem hn2 v hv
    obtain ⟨cols', hcols'⟩ := ih acc hnd.2 hresthyp
    refine ⟨cols', ?_⟩
    rw [cast_types, List.foldlM_cons, hacc]
    simpa [Bind.bind, Except.bind, cast_types] using hcols'

/-!
## Date-format lemmas
-/

/-- The exact `YYYY-MM-DD` shape the spec promises: ten characters, digits
everywhere except dashes at positions 4 and 7. -/
def isDateForm (s : String) : Bool :=
  match s.data with
  | [a, b, c, d, e, f, g, h, i, j] =>
      [a, b, c, d, f, g, i, j].all isDigitCh ∧ e = '-' ∧ h = '-'
  | _ => false

theorem daysInMonth_le (y mo : Nat) : daysInMonth y mo ≤ 31 := by
  rw [daysInMonth]
  split_ifs <;> omega

theorem list_len2 (xs : List Char) (h : xs.length = 2) : ∃ a b, xs = [a, b] := by
  cases xs with
  | nil => simp at h
  | cons a t =>
    cases t with
    | nil => simp at h
    | cons b t2 =>
      cases t2 with
      | nil => exact ⟨a, b, rfl⟩
      | cons c t3 => simp [List.length_cons] at h

theorem list_len4 (xs : List Char) (h : xs.length = 4) : ∃ a b c d, xs = [a, b, c, d] := by
  cases xs with
  | nil => simp at h
  | cons a t =>
    obtain ⟨b, c, d, ht⟩ : ∃ b c d, t = [b, c, d] := by
      cases t with
      | nil => simp at h
      | cons b t2 =>
        cases t2 with
        | nil => simp at h
        | cons c t3 =>
          cases t3 with
          | nil => simp at h
          | cons d t4 =>
            cases t4 with
            | nil => exact ⟨b, c, d, rfl⟩
            | cons e t5 => simp [List.length_cons] at h
    exact ⟨a, b, c, d, by rw [ht]⟩

theorem isDateForm_dateRepr (y mo d : Nat) (hy : y < 10000) (hmo : mo < 100)
    (hd : d < 100) : isDateForm (dateRepr y mo d) = true := by
  obtain ⟨a, b, c, d4, hA⟩ := list_len4 (padNat 4 y)
    (padNat_length 4 y (by omega) (by norm_num; omega))
  obtain ⟨e1, f1, hB⟩ := list_len2 (padNat 2 mo)
    (padNat_length 2 mo (by omega) (by norm_num; omega))
  obtain ⟨g1, h1c, hC⟩ := list_len2 (padNat 2 d)
    (padNat_length 2 d (by omega) (by norm_num; omega))
  have hdata : (dateRepr y mo d).data = [a, b, c, d4, '-', e1, f1, '-', g1, h1c] := by
    rw [dateRepr]
    show padNat 4 y ++ '-' :: (padNat 2 mo ++ '-' :: padNat 2 d) = _
    rw [hA, hB, hC]
    rfl
  have hdigs : ∀ x ∈ [a, b, c, d4, e1, f1, g1, h1c], isDigitCh x = true := by
    intro x hx
    simp only [List.mem_cons, List.not_mem_nil, or_false] at hx
    rcases hx with rfl | rfl | rfl | rfl | rfl | rfl | rfl | rfl
    · exact padNat_all_digits 4 y x (by rw [hA]; simp)
    · exact padNat_all_digits 4 y x (by rw [hA]; simp)
    · exact padNat_all_digits 4 y x (by rw [hA]; simp)
    · exact padNat_all_digits 4 y x (by rw [hA]; simp)
    · exact padNat_all_digits 2 mo x (by rw [hB]; simp)
    · exact padNat_all_digits 2 mo x (by rw [hB]; simp)
    · exact padNat_all_digits 2 d x (by rw [hC]; simp)
    · exact padNat_all_digits 2 d x (by rw [hC]; simp)
  rw [isDateForm, hdata]
  simp only [List.all_cons, List.all_nil, Bool.and_true, decide_eq_true_eq]
  have h1 := hdigs a (by simp)
  have h2 := hdigs b (by simp)
  have h3 := hdigs c (by simp)
  have h4 := hdigs d4 (by simp)
  have h5 := hdigs e1 (by simp)
  have h6 := hdigs f1 (by simp)
  have h7 := hdigs g1 (by simp)
  have h8 := hdigs h1c (by simp)
  simp [h1, h2, h3, h4, h5, h6, h7, h8]

theorem parseDateString_bounds (s : String) (y mo d : Nat)
    (h : parseDateString s = some (y, mo, d)) :
    1678 ≤ y ∧ y ≤ 2261 ∧ 1 ≤ mo ∧ mo ≤ 12 ∧ 1 ≤ d ∧ d ≤ 31 := by
  unfold parseDateString at h
  split at h
  · split_ifs at h with h1 h2
    simp only [Option.some.injEq, Prod.mk.injEq] at h
    obtain ⟨rfl, rfl, rfl⟩ := h
    exact ⟨h2.1, h2.2.1, h2.2.2.1, h2.2.2.2.1, h2.2.2.2.2.1,
      le_trans h2.2.2.2.2.2 (daysInMonth_le _ _)⟩
  · split_ifs at h with h1 h2
    simp only [Option.some.injEq, Prod.mk.injEq] at h
    obtain ⟨rfl, rfl, rfl⟩ := h
    exact ⟨h2.1, h2.2.1, h2.2.2.1, h2.2.2.2.1, h2.2.2.2.2.1,
      le_trans h2.2.2.2.2.2 (daysInMonth_le _ _)⟩
  · exact absurd h (by simp)

/-- pandas `Timestamp` scalars are representable only within the ns-resolution
range; a datetime cell therefore carries a calendar-valid date in the fully
covered years 1678-2261.  Hypothesis used by the date-cast claims. -/
def TimestampValid : Value → Bool
  | .dt y mo d => 1678 ≤ y ∧ y ≤ 2261 ∧ 1 ≤ mo ∧ mo ≤ 12 ∧ 1 ≤ d ∧ d ≤ 31
  | _ => true

theorem castDateValue_shape (v : Value) (hv : TimestampValid v = true) :
    castDateValue v = .nan ∨
      ∃ y mo d, y < 10000 ∧ mo < 100 ∧ d < 100 ∧
        castDateValue v = .str (dateRepr y mo d) := by
  rw [castDateValue]
  cases hp : parseDT v with
  | none => exact Or.inl rfl
  | some t =>
    obtain ⟨y, mo, d⟩ := t
    have hb : y < 10000 ∧ mo < 100 ∧ d < 100 := by
      rcases v with s | n | ⟨m, e⟩ | b | ⟨y2, mo2, d2⟩ | _ | _ | _ | _ <;> simp [parseDT] at hp
      · obtain ⟨hb1, hb2, hb3, hb4, hb5, hb6⟩ := parseDateString_bounds s y mo d hp
        omega
      · simp only [TimestampValid, decide_eq_true_eq] at hv
        obtain ⟨rfl, rfl, rfl⟩ := hp
        omega
    exact Or.inr ⟨y, mo, d, hb.1, hb.2.1, hb.2.2, rfl⟩

/-!
## Sanitizer and pipeline lemmas
-/

theorem cleanCol_name (c : Col) : (cleanCol c).name = c.name := by
  rw [cleanCol]
  split <;> rfl

theorem clean_dataframe_rel (cols : List Col) :
    List.Forall₂ (fun c c' => c'.name = c.name ∧
      ((inferDtype c.values = .object ∨ inferDtype c.values = .boolDt) →
        c'.values = c.values.map fun v => .str (sanitize (pyStr v))) ∧
      (¬ (inferDtype c.values = .object ∨ inferDtype c.values = .boolDt) → c' = c))
      cols (clean_dataframe cols) := by
  rw [clean_dataframe]
  induction cols with
  | nil => constructor
  | cons c ct ih =>
    rw [List.map_cons]
    refine List.Forall₂.cons ⟨cleanCol_name c, ?_, ?_⟩ ih
    · intro h
      rw [cleanCol, if_pos h]
    · intro h
      rw [cleanCol, if_neg h]

theorem Forall2_names {P : Col → Col → Prop} (cols cols' : List Col)
    (h : List.Forall₂ (fun c c' => c'.name = c.name ∧ P c c') cols cols') :
    cols'.map Col.name = cols.map Col.name := by
  induction h with
  | nil => rfl
  | cons hr hrest ih => simp [ih, hr.1]

theorem clean_dataframe_names (cols : List Col) :
    (clean_dataframe cols).map Col.name = cols.map Col.name := by
  rw [clean_dataframe, List.map_map]
  exact List.map_congr_left fun c _ => cleanCol_name c

theorem castFrame_ok (df df' : Frame) (schema : List (String × String))
    (h : castFrame df schema = .ok df') :
    cast_types df.cols schema = .ok df'.cols ∧ df'.nrows = df.nrows := by
  rw [castFrame] at h
  cases hc : cast_types df.cols schema with
  | error e => rw [hc] at h; simp [Except.map] at h
  | ok cols2 =>
    rw [hc] at h
    simp only [Except.map, Except.ok.injEq] at h
    subst h
    exact ⟨rfl, rfl⟩

theorem colNames_foldl_not_mem (k : String) :
    ∀ (rs : List Rec) (acc : List String),
      (∀ r ∈ rs, ∀ kv ∈ r, kv.1 ≠ k) → k ∉ acc →
      k ∉ rs.foldl
        (fun acc r => acc ++ ((r.map fun kv => kv.1).filter fun k2 => ¬ acc.contains k2))
        acc := by
  intro rs
  induction rs with
  | nil =>
    intro acc _ hacc
    simpa using hacc
  | cons r rt ih =>
    intro acc hr hacc
    rw [List.foldl_cons]
    apply ih _ fun r2 h2 kv hkv => hr r2 (by simp [h2]) kv hkv
    intro hmem
    rcases List.mem_append.mp hmem with h1 | h2
    · exact hacc h1
    · have hmap := (List.mem_filter.mp h2).1
      obtain ⟨kv, hkv, hkk⟩ := List.mem_map.mp hmap
      exact hr r (by simp) kv hkv hkk

theorem colNames_not_mem (k : String) (rs : List Rec)
    (h : ∀ r ∈ rs, ∀ kv ∈ r, kv.1 ≠ k) : k ∉ colNames rs := by
  rw [colNames]
  exact colNames_foldl_not_mem k rs [] h (by simp)

theorem dataFrameOfRecords_names (rs : List Rec) :
    (dataFrameOfRecords rs).cols.map Col.name = colNames rs := by
  rw [dataFrameOfRecords]
  show ((colNames rs).map fun k =>
    ({ name := k, values := rs.map fun r => (lookupKey r k).getD .nan } : Col)).map
      Col.name = colNames rs
  rw [List.map_map]
  have : (Col.name ∘ fun k =>
      ({ name := k, values := rs.map fun r => (lookupKey r k).getD .nan } : Col)) =
      fun k => k := rfl
  rw [this, List.map_id']

theorem dropId_names_sub (df : Frame) (k : String)
    (h : k ∈ (dropId df).cols.map Col.name) : k ∈ df.cols.map Col.name ∧ k ≠ "_id" := by
  rw [dropId] at h
  obtain ⟨c, hc, hcn⟩ := List.mem_map.mp h
  have hf := List.mem_filter.mp hc
  constructor
  · exact List.mem_map.mpr ⟨c, hf.1, hcn⟩
  · have := hf.2
    simp only [decide_eq_true_eq] at this
    rw [← hcn]
    exact this

theorem rowAt_keys (df : Frame) (i : Nat) (kv : String × Value) (h : kv ∈ rowAt df i) :
    kv.1 ∈ df.cols.map Col.name := by
  rw [rowAt] at h
  obtain ⟨c, hc, hck⟩ := List.mem_map.mp h
  exact List.mem_map.mpr ⟨c, hc, by rw [← hck]⟩

theorem pipelineFrame_names (data : List Rec) (schema : List (String × String)) (df' : Frame)
    (h : pipelineFrame data schema = .ok df') :
    df'.cols.map Col.name = (dropId (dataFrameOfRecords data)).cols.map Col.name := by
  rw [pipelineFrame] at h
  obtain ⟨hcast, _⟩ := castFrame_ok _ _ _ h
  have h2 := cast_types_forall2 schema _ _ hcast
  rw [Forall2_names _ _ h2]
  exact clean_dataframe_names _

theorem inferDtype_boolDt (vs : List Value) (h : inferDtype vs = .boolDt) :
    ∀ v ∈ vs, isBoolScalar v = true := by
  rw [inferDtype] at h
  split_ifs at h with h1
  exact fun v hv => List.all_eq_true.mp h1.2 v hv

/-!
## Serialized records contain no raw newline (one record per line)
-/

theorem hexDigitChar_ne_newline (d : Nat) (h : d < 16) : hexDigitChar d ≠ '\n' := by
  interval_cases d <;> decide

theorem digit_ne_newline (c : Char) (h : isDigitCh c = true) : c ≠ '\n' := by
  intro hc
  subst hc
  simp [isDigitCh] at h

theorem jsonEscapeChar_no_newline (c : Char) : '\n' ∉ jsonEscapeChar c := by
  rw [jsonEscapeChar]
  split_ifs with h1 h2 h3 h4 h5 h6 h7 h8
  · decide
  · decide
  · decide
  · decide
  · decide
  · decide
  · decide
  · intro hmem
    simp only [List.mem_cons, List.not_mem_nil, or_false] at hmem
    rcases hmem with h | h | h | h | h | h
    · exact absurd h.symm (by decide)
    · exact absurd h.symm (by decide)
    · exact absurd h.symm (by decide)
    · exact absurd h.symm (by decide)
    · exact (hexDigitChar_ne_newline (c.toNat / 16) (by omega)) h.symm
    · exact (hexDigitChar_ne_newline (c.toNat % 16) (by omega)) h.symm
  · intro hmem
    simp only [List.mem_cons, List.not_mem_nil, or_false] at hmem
    apply h3
    rw [hmem]

theorem jsonStringChars_no_newline (s : String) : '\n' ∉ jsonStringChars s := by
  rw [jsonStringChars]
  intro hmem
  rcases List.mem_cons.mp hmem with h | h
  · exact absurd h.symm (by decide)
  · rcases List.mem_append.mp h with h2 | h2
    · obtain ⟨c, _, hc⟩ := List.mem_flatMap.mp h2
      exact jsonEscapeChar_no_newline c hc
    · simp only [List.mem_singleton] at h2
      exact absurd h2.symm (by decide)

theorem natDigits_no_newline (n : Nat) : '\n' ∉ natDigits n := by
  intro h
  exact digit_ne_newline _ (natDigits_all_digits n _ h) rfl

theorem padNat_no_newline (w n : Nat) : '\n' ∉ padNat w n := by
  intro h
  exact digit_ne_newline _ (padNat_all_digits w n _ h) rfl

theorem jsonValueChars_no_newline (v : Value) (out : List Char)
    (h : jsonValueChars v = .ok out) : '\n' ∉ out := by
  cases v with
  | str s =>
    simp only [jsonValueChars, Except.ok.injEq] at h
    subst h
    exact jsonStringChars_no_newline s
  | int n =>
    simp only [jsonValueChars, Except.ok.injEq] at h
    subst h
    rw [intDigits]
    split_ifs
    · intro hmem
      rcases List.mem_cons.mp hmem with h2 | h2
      · exact absurd h2.symm (by decide)
      · exact natDigits_no_newline _ h2
    · exact natDigits_no_newline _
  | dec m e =>
    simp only [jsonValueChars, Except.ok.injEq] at h
    subst h
    split_ifs
    · intro hmem
      rcases List.mem_cons.mp hmem with h2 | h2
      · exact absurd h2.symm (by decide)
      · rcases List.mem_append.mp h2 with h3 | h3
        · exact natDigits_no_newline _ h3
        · rcases List.mem_cons.mp h3 with h4 | h4
          · exact absurd h4.symm (by decide)
          · exact padNat_no_newline _ _ h4
    · intro hmem
      rcases List.mem_append.mp hmem with h3 | h3
      · exact natDigits_no_newline _ h3
      · rcases List.mem_cons.mp h3 with h4 | h4
        · exact absurd h4.symm (by decide)
        · exact padNat_no_newline _ _ h4
  | bool b =>
    cases b <;> simp only [jsonValueChars, Bool.false_eq_true, ite_true, ite_false,
      Except.ok.injEq] at h <;> subst h <;> decide
  | pynone =>
    simp only [jsonValueChars, Except.ok.injEq] at h
    subst h
    decide
  | nan =>
    simp only [jsonValueChars, Except.ok.injEq] at h
    subst h
    decide
  | dt y mo d => simp [jsonValueChars] at h
  | naT => simp [jsonValueChars] at h
  | na => simp [jsonValueChars] at h

theorem jsonFieldsChars_no_newline (fs : Rec) (out : List Char)
    (h : jsonFieldsChars fs = .ok out) : '\n' ∉ out := by
  induction fs generalizing out with
  | nil =>
    simp only [jsonFieldsChars, Except.ok.injEq] at h
    subst h
    simp
  | cons kv tl ih =>
    obtain ⟨k, v⟩ := kv
    cases tl with
    | nil =>
      simp only [jsonFieldsChars] at h
      cases hvc : jsonValueChars v with
      | error e => rw [hvc] at h; simp [Bind.bind, Except.bind] at h
      | ok vc =>
        rw [hvc] at h
        simp only [Bind.bind, Except.bind, Except.ok.injEq] at h
        subst h
        intro hmem
        rcases List.mem_append.mp hmem with h2 | h2
        · exact jsonStringChars_no_newline k h2
        · rcases List.mem_cons.mp h2 with h3 | h3
          · exact absurd h3.symm (by decide)
          · rcases List.mem_cons.mp h3 with h4 | h4
            · exact absurd h4.symm (by decide)
            · exact jsonValueChars_no_newline v vc hvc h4
    | cons kv2 tl2 =>
      simp only [jsonFieldsChars] at h
      cases hvc : jsonValueChars v with
      | error e => rw [hvc] at h; simp [Bind.bind, Except.bind] at h
      | ok vc =>
        rw [hvc] at h
        cases hrest : jsonFieldsChars (kv2 :: tl2) with
        | error e => rw [hrest] at h; simp [Bind.bind, Except.bind] at h
        | ok out2 =>
          rw [hrest] at h
          simp only [Bind.bind, Except.bind, Except.ok.injEq] at h
          subst h
          intro hmem
          rcases List.mem_append.mp hmem with h2 | h2
          · rcases List.mem_append.mp h2 with h3 | h3
            · exact jsonStringChars_no_newline k h3
            · rcases List.mem_cons.mp h3 with h4 | h4
              · exact absurd h4.symm (by decide)
              · rcases List.mem_cons.mp h4 with h5 | h5
                · exact absurd h5.symm (by decide)
                · exact jsonValueChars_no_newline v vc hvc h5
          · rcases List.mem_cons.mp h2 with h6 | h6
            · exact absurd h6.symm (by decide)
            · rcases List.mem_cons.mp h6 with h7 | h7
              · exact absurd h7.symm (by decide)
              · exact ih out2 hrest h7

theorem jsonRecordChars_no_newline (r : Rec) (out : List Char)
    (h : jsonRecordChars r = .ok out) : '\n' ∉ out := by
  simp only [jsonRecordChars] at h
  cases hfs : jsonFieldsChars r with
  | error e => rw [hfs] at h; simp [Bind.bind, Except.bind] at h
  | ok fields =>
    rw [hfs] at h
    simp only [Bind.bind, Except.bind, Except.ok.injEq] at h
    subst h
    intro hmem
    rcases List.mem_cons.mp hmem with h2 | h2
    · exact absurd h2.symm (by decide)
    · rcases List.mem_append.mp h2 with h3 | h3
      · exact jsonFieldsChars_no_newline r fields hfs h3
      · simp only [List.mem_singleton] at h3
        exact absurd h3.symm (by decide)

/-!
## Claim theorems
-/

theorem natDigits_2021 : natDigits 2021 = ['2', '0', '2', '1'] := by
  rw [natDigits_cons 2021 (by omega)]
  norm_num
  rw [natDigits_cons 202 (by omega)]
  norm_num
  rw [natDigits_cons 20 (by omega)]
  norm_num
  rw [natDigits_small 2 (by omega)]
  decide

theorem dateRepr_2021_3_5 : dateRepr 2021 3 5 = "2021-03-05" := by
  rw [dateRepr]
  simp only [padNat, natDigits_2021, natDigits_small 3 (by omega),
    natDigits_small 5 (by omega)]
  decide

/-- C1: `clean_dataframe` replaces each value of every text (object-dtype) or
boolean column with its string form in which every occurrence of CR, LF and
TAB has been replaced by a single space and every character outside printable
ASCII 0x20-0x7E deleted (the composition `sanitize ∘ pyStr`), and leaves
every other column unchanged; consequently every value of such a column in
the output is a string containing no CR, LF, TAB, nor any character outside
0x20-0x7E. -/
theorem claim_C1_sanitizer (cols : List Col) :
    List.Forall₂ (fun c c' => c'.name = c.name ∧
      ((inferDtype c.values = .object ∨ inferDtype c.values = .boolDt) →
        c'.values = (c.values.map fun v => .str (sanitize (pyStr v))) ∧
        ∀ v' ∈ c'.values, ∃ s, v' = .str s ∧
          ∀ ch ∈ s.data, (0x20 ≤ ch.toNat ∧ ch.toNat ≤ 0x7E) ∧
            ch ≠ '\r' ∧ ch ≠ '\n' ∧ ch ≠ '\t') ∧
      (¬ (inferDtype c.values = .object ∨ inferDtype c.values = .boolDt) → c' = c))
      cols (clean_dataframe cols) := by
  refine (clean_dataframe_rel cols).imp ?_
  rintro c c' ⟨hn, htext, hother⟩
  refine ⟨hn, fun hdt => ⟨htext hdt, ?_⟩, hother⟩
  intro v' hv'
  rw [htext hdt] at hv'
  obtain ⟨v, _, rfl⟩ := List.mem_map.mp hv'
  refine ⟨sanitize (pyStr v), rfl, ?_⟩
  intro ch hch
  have hp := sanitize_chars_printable (pyStr v) ch hch
  have hnc := printable_not_ctrl ch hp
  simp only [printable, decide_eq_true_eq] at hp
  exact ⟨hp, hnc.1, hnc.2.1, hnc.2.2⟩

/-- C2: after a successful `cast_types`, every value of a field declared
`int` in the schema is an integer or the `Int64` missing marker NA - never a
non-numeric string; in particular the delimited-digits string `"1,234"`
fails the strict numeric parse and is cast to NA, the null of the nullable
integer dtype. -/
theorem claim_C2_integer_cast (schema : List (String × String)) (cols cols' : List Col)
    (name : String) (c' : Col)
    (hmem : (name, "int") ∈ schema) (hnd : (schema.map Prod.fst).Nodup)
    (h : cast_types cols schema = .ok cols') (hc' : c' ∈ cols')
    (hname : c'.name = name) :
    (∀ v' ∈ c'.values, (∃ n : Int, v' = .int n) ∨ v' = .na) ∧
      castIntValue (.str "1,234") = .ok .na := by
  refine ⟨?_, by rfl⟩
  intro v' hv'
  obtain ⟨c, _, hcn, hccast⟩ :=
    Forall2_mem_right (cast_types_field schema name "int" cols cols' hmem hnd h) c' hc'
  have hshape := castCol_int_shape c.values c'.values (hccast (by rw [← hcn]; exact hname))
    v' hv'
  rcases hshape with ⟨n, hn, _, _⟩ | hna
  · exact Or.inl ⟨n, hn⟩
  · exact Or.inr hna

/-- C2 witness: the schema entry `views : int` applied to the single value
`"1,234"` yields NA. -/
theorem claim_C2_integer_cast_witness :
    (∀ v' ∈ (⟨"views", [Value.na]⟩ : Col).values,
        (∃ n : Int, v' = .int n) ∨ v' = Value.na) ∧
      castIntValue (.str "1,234") = .ok .na :=
  claim_C2_integer_cast [("views", "int")] [⟨"views", [.str "1,234"]⟩]
    [⟨"views", [.na]⟩] "views" ⟨"views", [.na]⟩
    (by decide) (by decide) (by rfl) (by decide) rfl

/-- C3 counterexample: `pd.DataFrame(data)` backfills a key that is missing
from one record but present in another.  For the two-record input where only
the second record carries `engagement` (declared `float` in the schema), the
pipeline's first output row contains the key `engagement` (bound to NaN),
and serializing the pipeline output emits the first record WITH that key,
bound to the non-standard JSON literal `NaN` - while the claim says the
record would be serialized without the key.  The second conjunct records
that the first input record indeed lacked the key; the third evaluates the
full NDJSON output. -/
theorem claim_C3_counterexample :
    ((pipelineFrame
        [[("views", Value.int 1)], [("views", Value.int 2), ("engagement", Value.dec 25 1)]]
        (SCHEMAS "UserTiktokMetrics")).map
      fun df' => (((rowsOf df').getD 0 []).map Prod.fst).contains "engagement") =
      .ok true ∧
    ((([[("views", Value.int 1)],
        [("views", Value.int 2), ("engagement", Value.dec 25 1)]].getD 0 [] : Rec).map
        Prod.fst).contains "engagement") = false ∧
    ((pipelineFrame
        [[("views", Value.int 1)], [("views", Value.int 2), ("engagement", Value.dec 25 1)]]
        (SCHEMAS "UserTiktokMetrics")).bind export_to_ndjson) =
      .ok "\x7b\"views\": 1, \"engagement\": NaN\x7d\n\x7b\"views\": 2, \"engagement\": 2.5\x7d\n" := by
  refine ⟨by rfl, by rfl, ?_⟩
  have hv1 : jsonValueChars (Value.int 1) = .ok ['1'] := by
    show Except.ok (natDigits 1) = Except.ok ['1']
    rw [natDigits_small 1 (by omega)]
    rfl
  have hv2 : jsonValueChars (Value.int 2) = .ok ['2'] := by
    show Except.ok (natDigits 2) = Except.ok ['2']
    rw [natDigits_small 2 (by omega)]
    rfl
  have hvdec : jsonValueChars (Value.dec 25 1) = .ok ['2', '.', '5'] := by
    show Except.ok (natDigits 2 ++ '.' :: padNat 1 5) = Except.ok ['2', '.', '5']
    rw [natDigits_small 2 (by omega), padNat, natDigits_small 5 (by omega)]
    rfl
  have hvnan : jsonValueChars Value.nan = .ok ['N', 'a', 'N'] := rfl
  have hr1 : jsonRecordChars [("views", Value.int 1), ("engagement", Value.nan)] =
      .ok ("\x7b\"views\": 1, \"engagement\": NaN\x7d".data) := by
    rw [jsonRecordChars]
    simp only [jsonFieldsChars, hv1, hvnan, Bind.bind, Except.bind]
    rfl
  have hr2 : jsonRecordChars [("views", Value.int 2), ("engagement", Value.dec 25 1)] =
      .ok ("\x7b\"views\": 2, \"engagement\": 2.5\x7d".data) := by
    rw [jsonRecordChars]
    simp only [jsonFieldsChars, hv2, hvdec, Bind.bind, Except.bind]
    rfl
  show export_to_ndjson (⟨[⟨"views", [Value.int 1, Value.int 2]⟩,
      ⟨"engagement", [Value.nan, Value.dec 25 1]⟩], 2⟩ : Frame) = _
  rw [export_to_ndjson]
  have hrows : rowsOf (⟨[⟨"views", [Value.int 1, Value.int 2]⟩,
      ⟨"engagement", [Value.nan, Value.dec 25 1]⟩], 2⟩ : Frame) =
      [[("views", Value.int 1), ("engagement", Value.nan)],
       [("views", Value.int 2), ("engagement", Value.dec 25 1)]] := by rfl
  rw [hrows]
  simp only [List.mapM_cons, List.mapM_nil, hr1, hr2, Bind.bind, Except.bind,
    pure, Except.pure]
  rfl

/-- C3 amended: a field absent from EVERY record yields no column and is
serialized without that key in every row; a field absent from only some
records is backfilled at DataFrame construction (see the counterexample).
Fields absent from the schema are passed through the caster unchanged. -/
theorem claim_C3_absent_fields (data : List Rec) (schema : List (String × String))
    (df' : Frame) (k : String)
    (habsent : ∀ r ∈ data, ∀ kv ∈ r, kv.1 ≠ k)
    (h : pipelineFrame data schema = .ok df') :
    (∀ r ∈ rowsOf df', ∀ kv ∈ r, kv.1 ≠ k) ∧
    (∀ cols cols', cast_types cols schema = .ok cols' →
      List.Forall₂ (fun c c' => c'.name = c.name ∧
        (c.name ∉ schema.map Prod.fst → c' = c)) cols cols') := by
  constructor
  · intro r hr kv hkv hkk
    obtain ⟨i, _, rfl⟩ := List.mem_map.mp hr
    have hkeys := rowAt_keys df' i kv hkv
    rw [pipelineFrame_names data schema df' h] at hkeys
    have hbase := (dropId_names_sub _ _ hkeys).1
    rw [dataFrameOfRecords_names, hkk] at hbase
    exact colNames_not_mem k data habsent hbase
  · exact fun cols cols' hc => cast_types_forall2 schema cols cols' hc

/-- C3 witness: a key absent from the single input record stays absent from
the pipeline output. -/
theorem claim_C3_absent_fields_witness :
    (∀ r ∈ rowsOf (⟨[⟨"views", [Value.int 1]⟩], 1⟩ : Frame),
        ∀ kv ∈ r, kv.1 ≠ "engagement") ∧
    (∀ cols cols', cast_types cols [] = .ok cols' →
      List.Forall₂ (fun c c' => c'.name = c.name ∧
        (c.name ∉ ([] : List (String × String)).map Prod.fst → c' = c)) cols cols') :=
  claim_C3_absent_fields [[("views", Value.int 1)]] []
    ⟨[⟨"views", [Value.int 1]⟩], 1⟩ "engagement" (by decide) (by rfl)

/-- C4: after a successful `cast_types`, every value of a field declared
`date` is either NaN or a string of the exact shape `YYYY-MM-DD`; a
date-time string has its time-of-day discarded (`2021-03-05 17:30:00`
becomes `2021-03-05`). -/
theorem claim_C4_date_cast (schema : List (String × String)) (cols cols' : List Col)
    (name : String) (c' : Col)
    (hmem : (name, "date") ∈ schema) (hnd : (schema.map Prod.fst).Nodup)
    (h : cast_types cols schema = .ok cols') (hc' : c' ∈ cols')
    (hname : c'.name = name)
    (hts : ∀ c ∈ cols, ∀ v ∈ c.values, TimestampValid v = true) :
    (∀ v' ∈ c'.values, v' = .nan ∨ ∃ s, v' = .str s ∧ isDateForm s = true) ∧
      castDateValue (.str "2021-03-05 17:30:00") = .str (dateRepr 2021 3 5) ∧
      dateRepr 2021 3 5 = "2021-03-05" := by
  refine ⟨?_, by rfl, dateRepr_2021_3_5⟩
  intro v' hv'
  obtain ⟨c, hcmem, hcn, hccast⟩ :=
    Forall2_mem_right (cast_types_field schema name "date" cols cols' hmem hnd h) c' hc'
  have hdate := hccast (by rw [← hcn]; exact hname)
  rw [castCol_date_eq] at hdate
  simp only [Except.ok.injEq] at hdate
  rw [← hdate] at hv'
  obtain ⟨v, hv, rfl⟩ := List.mem_map.mp hv'
  rcases castDateValue_shape v (hts c hcmem v hv) with hnan | ⟨y, mo, d, hy, hmo, hd, heq⟩
  · exact Or.inl hnan
  · exact Or.inr ⟨dateRepr y mo d, heq, isDateForm_dateRepr y mo d hy hmo hd⟩

/-- C4 witness: the schema entry `datePosted : date` applied to the single
value `"2020-01-15"`. -/
theorem claim_C4_date_cast_witness :
    (∀ v' ∈ (⟨"datePosted", [Value.str (dateRepr 2020 1 15)]⟩ : Col).values,
        v' = Value.nan ∨ ∃ s, v' = .str s ∧ isDateForm s = true) ∧
      castDateValue (.str "2021-03-05 17:30:00") = .str (dateRepr 2021 3 5) ∧
      dateRepr 2021 3 5 = "2021-03-05" :=
  claim_C4_date_cast [("datePosted", "date")]
    [⟨"datePosted", [.str "2020-01-15"]⟩]
    [⟨"datePosted", [.str (dateRepr 2020 1 15)]⟩]
    "datePosted" ⟨"datePosted", [.str (dateRepr 2020 1 15)]⟩
    (by decide) (by decide) (by rfl) (by simp) rfl (by decide)

/-- C5 counterexample: the claim says type casting raises no exception for
any record set, but an integer-declared field holding the numeric string
`"1.5"` parses to a non-integral float and pandas' safe cast
`astype("Int64")` raises instead of degrading to null. -/
theorem claim_C5_counterexample :
    cast_types [⟨"views", [Value.str "1.5"]⟩] [("views", "int")] =
      .error "cannot safely cast non-equivalent float64 to int64" := by rfl

/-- C5 amended: the cast raises no exception provided every value of every
integer-declared field either fails the numeric parse or parses to an
integral value in signed-64-bit range; under that proviso individual failed
coercions degrade to null (NA for integers, NaN for floats and dates) rather
than aborting the field, the record, or the run. -/
theorem claim_C5_no_exception (schema : List (String × String)) (cols : List Col)
    (hnd : (schema.map Prod.fst).Nodup)
    (hint : ∀ name, (name, "int") ∈ schema → ∀ c ∈ cols, c.name = name →
      ∀ v ∈ c.values, ∃ v', castIntValue v = .ok v') :
    (∃ cols', cast_types cols schema = .ok cols') ∧
    (∀ s, parseNumeric s = .none → castIntValue (.str s) = .ok .na) ∧
    (∀ s, parseNumeric s = .none → toNumeric (.str s) = .nan) ∧
    (∀ v, parseDT v = .none → castDateValue v = .nan) := by
  refine ⟨cast_types_isOk schema cols hnd hint, ?_, ?_, ?_⟩
  · intro s hs
    unfold castIntValue
    simp [toNumeric, hs]
  · intro s hs
    simp [toNumeric, hs]
  · intro v hv
    rw [castDateValue, hv]

/-- C5 witness: a one-column frame whose integer field holds `"7"`. -/
theorem claim_C5_no_exception_witness :
    (∃ cols', cast_types [⟨"views", [Value.str "7"]⟩] [("views", "int")] = .ok cols') ∧
    (∀ s, parseNumeric s = .none → castIntValue (.str s) = .ok .na) ∧
    (∀ s, parseNumeric s = .none → toNumeric (.str s) = .nan) ∧
    (∀ v, parseDT v = .none → castDateValue v = .nan) :=
  claim_C5_no_exception [("views", "int")] [⟨"views", [.str "7"]⟩]
    (by decide)
    (by
      intro name hmem c hc hn v hv
      simp only [List.mem_singleton] at hc
      subst hc
      cases hv with
      | head => exact ⟨.int 7, by rfl⟩
      | tail _ h2 => cases h2)

/-- C6: for a schema field whose declared type is none of `int`, `float`,
`date`, a successful `cast_types` has applied `astype(str)` to the column:
the result values are exactly the Python string forms of the inputs, hence
never a null scalar - a null source value becomes its literal textual
null-representation (`None`, `nan`, `NaT`, `<NA>`). -/
theorem claim_C6_fallback_str (schema : List (String × String)) (cols cols' : List Col)
    (name typ : String) (c' : Col)
    (hmem : (name, typ) ∈ schema) (ht1 : typ ≠ "int") (ht2 : typ ≠ "float")
    (ht3 : typ ≠ "date")
    (hnd : (schema.map Prod.fst).Nodup)
    (h : cast_types cols schema = .ok cols') (hc' : c' ∈ cols')
    (hname : c'.name = name) :
    (∃ c ∈ cols, c'.name = c.name ∧ c'.values = c.values.map fun v => .str (pyStr v)) ∧
    (∀ v' ∈ c'.values, ∃ s, v' = .str s) ∧
    pyStr .pynone = "None" ∧ pyStr .nan = "nan" ∧ pyStr .naT = "NaT" ∧
      pyStr .na = "<NA>" := by
  obtain ⟨c, hcmem, hcn, hccast⟩ :=
    Forall2_mem_right (cast_types_field schema name typ cols cols' hmem hnd h) c' hc'
  have hother := hccast (by rw [← hcn]; exact hname)
  rw [castCol_other_eq c.values typ ht1 ht2 ht3] at hother
  simp only [Except.ok.injEq] at hother
  refine ⟨⟨c, hcmem, hcn, hother.symm⟩, ?_, rfl, rfl, rfl, rfl⟩
  intro v' hv'
  rw [← hother] at hv'
  obtain ⟨v, _, rfl⟩ := List.mem_map.mp hv'
  exact ⟨pyStr v, rfl⟩

/-- C6 witness: the schema entry `hourPosted : string` applied to a column
holding a single Python `None`. -/
theorem claim_C6_fallback_str_witness :
    (∃ c ∈ [(⟨"hourPosted", [Value.pynone]⟩ : Col)],
        (⟨"hourPosted", [Value.str "None"]⟩ : Col).name = c.name ∧
        (⟨"hourPosted", [Value.str "None"]⟩ : Col).values =
          c.values.map fun v => .str (pyStr v)) ∧
    (∀ v' ∈ (⟨"hourPosted", [Value.str "None"]⟩ : Col).values, ∃ s, v' = .str s) ∧
    pyStr .pynone = "None" ∧ pyStr .nan = "nan" ∧ pyStr .naT = "NaT" ∧
      pyStr .na = "<NA>" :=
  claim_C6_fallback_str [("hourPosted", "string")] [⟨"hourPosted", [Value.pynone]⟩]
    [⟨"hourPosted", [Value.str "None"]⟩] "hourPosted" "string"
    ⟨"hourPosted", [Value.str "None"]⟩
    (by decide) (by decide) (by decide) (by decide) (by decide) (by rfl) (by decide) rfl

/-- C7: the pipeline drops the `_id` column right after fetching, before
sanitizing, casting and serializing, so no output column and no serialized
row of a successfully processed collection carries the `_id` key. -/
theorem claim_C7_no_id (data : List Rec) (schema : List (String × String)) (df' : Frame)
    (h : pipelineFrame data schema = .ok df') :
    "_id" ∉ df'.cols.map Col.name ∧ ∀ r ∈ rowsOf df', ∀ kv ∈ r, kv.1 ≠ "_id" := by
  have hnames : ∀ k, k ∈ df'.cols.map Col.name → k ≠ "_id" := by
    intro k hk
    rw [pipelineFrame_names data schema df' h] at hk
    exact (dropId_names_sub _ _ hk).2
  constructor
  · intro hmem
    exact hnames "_id" hmem rfl
  · intro r hr kv hkv
    obtain ⟨i, _, rfl⟩ := List.mem_map.mp hr
    exact hnames kv.1 (rowAt_keys df' i kv hkv)

/-- C7 witness: a record carrying `_id` loses it through the pipeline. -/
theorem claim_C7_no_id_witness :
    "_id" ∉ (⟨[⟨"views", [Value.int 1]⟩], 1⟩ : Frame).cols.map Col.name ∧
    ∀ r ∈ rowsOf (⟨[⟨"views", [Value.int 1]⟩], 1⟩ : Frame),
      ∀ kv ∈ r, kv.1 ≠ "_id" :=
  claim_C7_no_id [[("_id", Value.str "abc"), ("views", Value.int 1)]] []
    ⟨[⟨"views", [Value.int 1]⟩], 1⟩ (by rfl)

/-- C8: `main` maps its try/except loop body over the configured collections
and always returns one outcome per collection (the process finishes and
exits 0 by construction); each collection's outcome depends only on its own
fetch result and on the uploader, so a failure in one collection - at fetch,
cast, serialize or publish, all reflected as `Outcome.failed` - cannot
prevent any other collection from being processed. -/
theorem claim_C8_isolation (fetch₁ fetch₂ : String → Except String (List Rec))
    (upload₁ upload₂ : String → String → Except String Unit)
    (i : Nat) (hi : i < COLLECTIONS.length)
    (hf : fetch₁ (COLLECTIONS.get ⟨i, hi⟩).1 = fetch₂ (COLLECTIONS.get ⟨i, hi⟩).1)
    (hu : ∀ k c, upload₁ k c = upload₂ k c) :
    (main fetch₁ upload₁).length = COLLECTIONS.length ∧
    (main fetch₁ upload₁).get ⟨i, by simp only [main, List.length_map]; exact hi⟩ =
      runCollection fetch₁ upload₁ (COLLECTIONS.get ⟨i, hi⟩) ∧
    (main fetch₁ upload₁).get ⟨i, by simp only [main, List.length_map]; exact hi⟩ =
      (main fetch₂ upload₂).get ⟨i, by simp only [main, List.length_map]; exact hi⟩ := by
  refine ⟨by simp only [main, List.length_map], ?_, ?_⟩
  · simp only [main]
    rw [List.get_eq_getElem, List.getElem_map]
    rfl
  · simp only [main]
    rw [List.get_eq_getElem, List.get_eq_getElem, List.getElem_map, List.getElem_map]
    have hf2 : fetch₁ (COLLECTIONS[i]).1 = fetch₂ (COLLECTIONS[i]).1 := hf
    rcases hfe : fetch₂ (COLLECTIONS[i]).1 with e | data
    · simp [runCollection, hf2, hfe]
    · rcases data with _ | ⟨r, rest⟩
      · simp [runCollection, hf2, hfe]
      · rcases hpc : processCollection (r :: rest) (SCHEMAS (COLLECTIONS[i]).1)
          with e | content
        · simp [runCollection, hf2, hfe, hpc]
        · simp [runCollection, hf2, hfe, hpc, hu]

/-- C8 witness at the first collection with concrete effect functions: the
first collection's fetch fails while nothing else is affected. -/
theorem claim_C8_isolation_witness :
    (main (fun _ => .error "connection refused") (fun _ _ => .ok ())).length =
      COLLECTIONS.length ∧
    (main (fun _ => .error "connection refused") (fun _ _ => .ok ())).get
        ⟨0, by simp only [main, List.length_map]; decide⟩ =
      runCollection (fun _ => .error "connection refused") (fun _ _ => .ok ())
        (COLLECTIONS.get ⟨0, by decide⟩) ∧
    (main (fun _ => .error "connection refused") (fun _ _ => .ok ())).get
        ⟨0, by simp only [main, List.length_map]; decide⟩ =
      (main (fun _ => .error "connection refused") (fun _ _ => .ok ())).get
        ⟨0, by simp only [main, List.length_map]; decide⟩ :=
  claim_C8_isolation (fun _ => .error "connection refused")
    (fun _ => .error "connection refused") (fun _ _ => .ok ()) (fun _ _ => .ok ())
    0 (by decide) rfl (fun _ _ => rfl)

/-- C9 counterexample: `json.dumps` raises on the pandas NA scalar (the null
of an `Int64`-cast column), so a record set containing NA cannot be
serialized at all, let alone round-tripped; the claim fails as stated for
that record set. -/
theorem claim_C9_counterexample :
    ¬ ∃ out, export_to_ndjson (⟨[⟨"views", [Value.na]⟩], 1⟩ : Frame) = .ok out ∧
      parseNDJSON out = some (rowsOf (⟨[⟨"views", [Value.na]⟩], 1⟩ : Frame)) := by
  rintro ⟨out, hout, -⟩
  have herr : export_to_ndjson (⟨[⟨"views", [Value.na]⟩], 1⟩ : Frame) =
      .error "Object of type NAType is not JSON serializable" := by rfl
  rw [herr] at hout
  exact Except.noConfusion hout

/-- C9 amended: for every record set whose values are JSON-serializable
scalars (strings, ints, decimal floats, booleans, `None`, NaN - i.e. no
pandas NA/NaT/raw-Timestamp scalars), `export_to_ndjson` succeeds, each
record's serialization contains no raw newline (so the output is one compact
JSON object per line, in record order, with non-ASCII kept literal by the
escaper), and parsing the stream back one record per line yields exactly the
rows serialized - same count, same keys, same values. -/
theorem claim_C9_roundtrip (df : Frame)
    (hser : ∀ r ∈ rowsOf df, ∀ kv ∈ r, SerializableV kv.2 = true) :
    (∃ out, export_to_ndjson df = .ok out ∧ parseNDJSON out = some (rowsOf df)) ∧
    (∀ r ∈ rowsOf df, ∀ rc, jsonRecordChars r = .ok rc → '\n' ∉ rc) :=
  ⟨export_to_ndjson_roundtrip df hser,
   fun r _ rc hrc => jsonRecordChars_no_newline r rc hrc⟩

/-- C9 witness: a concrete two-column frame with a non-ASCII, quote and
backslash bearing string round-trips. -/
theorem claim_C9_roundtrip_witness :
    (∃ out, export_to_ndjson (⟨[⟨"a", [Value.str "héllo\"\\"]⟩,
        ⟨"n", [Value.dec (-25) 1]⟩], 1⟩ : Frame) = .ok out ∧
      parseNDJSON out = some (rowsOf (⟨[⟨"a", [Value.str "héllo\"\\"]⟩,
        ⟨"n", [Value.dec (-25) 1]⟩], 1⟩ : Frame))) ∧
    (∀ r ∈ rowsOf (⟨[⟨"a", [Value.str "héllo\"\\"]⟩,
        ⟨"n", [Value.dec (-25) 1]⟩], 1⟩ : Frame),
      ∀ rc, jsonRecordChars r = .ok rc → '\n' ∉ rc) :=
  claim_C9_roundtrip
    (⟨[⟨"a", [Value.str "héllo\"\\"]⟩, ⟨"n", [Value.dec (-25) 1]⟩], 1⟩ : Frame)
    (by decide)

/-- C10: sanitization is schema-independent - `clean_dataframe` takes no
schema and stringifies every object- or bool-dtype column.  For a field of
such dtype that the schema does not mention, the caster passes the sanitized
column through untouched, so its output values are printable-ASCII strings;
a bool-dtype field in particular is emitted as the strings
`"True"`/`"False"`, not as JSON booleans. -/
theorem claim_C10_schema_independent (cols cols' : List Col)
    (schema : List (String × String))
    (h : cast_types (clean_dataframe cols) schema = .ok cols') :
    List.Forall₂ (fun c c' => c'.name = c.name ∧
      ((inferDtype c.values = .object ∨ inferDtype c.values = .boolDt) →
        c.name ∉ schema.map Prod.fst →
        c'.values = (c.values.map fun v => .str (sanitize (pyStr v))) ∧
        ∀ v' ∈ c'.values, ∃ s, v' = .str s ∧ ∀ ch ∈ s.data, printable ch = true) ∧
      (inferDtype c.values = .boolDt → c.name ∉ schema.map Prod.fst →
        ∀ v' ∈ c'.values, v' = .str "True" ∨ v' = .str "False"))
      cols cols' := by
  have h1 := clean_dataframe_rel cols
  have h2 := cast_types_forall2 schema _ _ h
  refine (Forall2_compose _ _ h1 h2).imp ?_
  rintro c c' ⟨c2, ⟨hn2, htext, _⟩, hn3, hpass⟩
  have hmain : (inferDtype c.values = .object ∨ inferDtype c.values = .boolDt) →
      c.name ∉ schema.map Prod.fst →
      c'.values = c.values.map fun v => .str (sanitize (pyStr v)) := by
    intro hdt hns
    have hc2 : c' = c2 := hpass (by rw [hn2]; exact hns)
    rw [hc2, htext hdt]
  refine ⟨by rw [hn3, hn2], fun hdt hns => ⟨hmain hdt hns, ?_⟩, fun hbool hns => ?_⟩
  · intro v' hv'
    rw [hmain hdt hns] at hv'
    obtain ⟨v, _, rfl⟩ := List.mem_map.mp hv'
    exact ⟨sanitize (pyStr v), rfl, sanitize_chars_printable (pyStr v)⟩
  · intro v' hv'
    rw [hmain (Or.inr hbool) hns] at hv'
    obtain ⟨v, hv, rfl⟩ := List.mem_map.mp hv'
    have hb := inferDtype_boolDt c.values hbool v hv
    rcases v with _ | _ | _ | b | _ | _ | _ | _ | _ <;> simp [isBoolScalar] at hb
    cases b
    · exact Or.inr (by decide)
    · exact Or.inl (by decide)

/-- C10 witness: a bool column absent from the schema is emitted as the
string `"True"`. -/
theorem claim_C10_schema_independent_witness :
    List.Forall₂ (fun (c c' : Col) => c'.name = c.name ∧
      ((inferDtype c.values = .object ∨ inferDtype c.values = .boolDt) →
        c.name ∉ ([("views", "int")] : List (String × String)).map Prod.fst →
        c'.values = (c.values.map fun v => .str (sanitize (pyStr v))) ∧
        ∀ v' ∈ c'.values, ∃ s, v' = .str s ∧ ∀ ch ∈ s.data, printable ch = true) ∧
      (inferDtype c.values = .boolDt →
        c.name ∉ ([("views", "int")] : List (String × String)).map Prod.fst →
        ∀ v' ∈ c'.values, v' = .str "True" ∨ v' = .str "False"))
      [⟨"flag", [Value.bool true]⟩] [⟨"flag", [Value.str "True"]⟩] :=
  claim_C10_schema_independent [⟨"flag", [Value.bool true]⟩]
    [⟨"flag", [Value.str "True"]⟩] [("views", "int")] (by rfl)

end Ingesta
